import Mathlib

/-!
# Verification of the DailyIPTV aggregation pipeline

Shallow embedding of `scripts/update_sources.py` (class `IPTVUpdater`) and
`scripts/update_vod_sources.py` (class `VODUpdater`).

Modelling conventions:
* Python strings are Lean `String`s; `str.strip`, `str.lower`, `str.upper`,
  `str.splitlines`, the substring operator `in`, and the three regular
  expressions used by the scripts are given explicit executable models below.
* Network effects (`requests.get` / `requests.head`) are passed in as function
  parameters: a fetcher `String → Option String` (`None` = non-200 status or
  exception, exactly the cases where `fetch_source` returns `None`), and a
  per-URL transport outcome for the reachability probes.
* Wall-clock timestamps that appear in generated headers are parameters.
* File writes are recorded as the ordered list of paths written; floats
  (`validity_ratio`) are modelled as exact rationals.

The file `update_sources.py` contains two near-duplicate revisions of most of
its logic: the methods of class `IPTVUpdater` (lines 13-410, the ones actually
bound to the class and executed), and a second set of plain functions that sit
inside the `if __name__ == "__main__":` block after the first `updater.run()`
call (lines 415-752, never attached to the class).  Both revisions are embedded
where the claims cite both: the executed ones keep the source names
(`run`, `is_url_accessible`, ...) and the superseded ones get a `_v2` suffix.
-/

namespace DailyIPTV

/-- Whitespace characters removed by Python's `str.strip()` (ASCII subset,
the only ones that occur in playlist text). -/
def isPySpace (c : Char) : Bool :=
  c = ' ' || c = '\t' || c = '\n' || c = '\r' || c = '\x0b' || c = '\x0c'

/-- Remove trailing `isPySpace` characters. -/
def stripEndChars (l : List Char) : List Char :=
  (l.reverse.dropWhile isPySpace).reverse

/-- Model of Python `str.strip()` on character lists. -/
def pyStripChars (l : List Char) : List Char :=
  stripEndChars (l.dropWhile isPySpace)

/-- Model of Python `str.strip()`. -/
def pyStrip (s : String) : String := ⟨pyStripChars s.data⟩

/-- Model of Python `str.lower()` (ASCII case mapping; the keyword tables of the
scripts contain only ASCII letters and CJK characters, which `lower()` leaves
unchanged). -/
def pyLowerChar (c : Char) : Char :=
  if 'A' ≤ c && c ≤ 'Z' then Char.ofNat (c.toNat + 32) else c

/-- Model of Python `str.lower()`. -/
def pyLower (s : String) : String := ⟨s.data.map pyLowerChar⟩

/-- Model of Python `str.upper()` (ASCII case mapping). -/
def pyUpperChar (c : Char) : Char :=
  if 'a' ≤ c && c ≤ 'z' then Char.ofNat (c.toNat - 32) else c

/-- Model of Python `str.upper()`. -/
def pyUpper (s : String) : String := ⟨s.data.map pyUpperChar⟩

/-- Does `needle` occur contiguously inside `hay`? -/
def hasSubstrChars (needle : List Char) : List Char → Bool
  | [] => needle.isEmpty
  | c :: cs => needle.isPrefixOf (c :: cs) || hasSubstrChars needle cs

/-- Model of Python's substring test `needle in hay`. -/
def pyContains (hay needle : String) : Bool :=
  hasSubstrChars needle.data hay.data

/-- Model of Python `str.startswith`. -/
def pyStartsWith (s pre : String) : Bool :=
  pre.data.isPrefixOf s.data

/-- Split a character list at every `'\n'`; always returns at least one
(possibly empty) part. -/
def splitOnNl : List Char → List (List Char)
  | [] => [[]]
  | c :: cs =>
    match splitOnNl cs with
    | [] => [[]]
    | p :: ps => if c = '\n' then [] :: p :: ps else (c :: p) :: ps

/-- Model of Python `str.splitlines()` for LF-separated text (the scripts both
produce and consume LF line endings): like splitting on `'\n'`, except that a
trailing terminator produces no final empty line and `""` has no lines. -/
def pySplitlinesChars (l : List Char) : List (List Char) :=
  let ps := splitOnNl l
  if ps.getLast? = some [] then ps.dropLast else ps

/-- Model of Python `str.splitlines()`. -/
def pySplitlines (s : String) : List String :=
  (pySplitlinesChars s.data).map (⟨·⟩)

/-- The text after the first `','`, if any: model of
`re.search(r",(?P<name>.*)$", line)`, whose leftmost match starts at the first
comma and captures the remainder of the line. -/
def afterCommaChars : List Char → Option (List Char)
  | [] => none
  | c :: cs => if c = ',' then some cs else afterCommaChars cs

/-- String-level wrapper for `afterCommaChars`. -/
def afterComma (s : String) : Option String :=
  (afterCommaChars s.data).map (⟨·⟩)

/-- Model of `re.search(key + "([^\"]*)\"", line)` where `key` ends with the
opening double quote (used with `group-title="` and `tvg-logo="`): the value at
the leftmost position where the key occurs and a closing quote follows. -/
def extractAttrChars (key : List Char) : List Char → Option (List Char)
  | [] => none
  | c :: cs =>
    if key.isPrefixOf (c :: cs) then
      let rest := List.drop key.length (c :: cs)
      let v := rest.takeWhile (fun d => d ≠ '"')
      if v.length < rest.length then some v else extractAttrChars key cs
    else extractAttrChars key cs

/-- String-level wrapper for `extractAttrChars`. -/
def extractAttr (key s : String) : Option String :=
  (extractAttrChars key.data s.data).map (⟨·⟩)

/-! ## Data model -/

/-- One live channel entry, as built by `IPTVUpdater.parse_m3u`
(`update_sources.py` lines 64-93): the dict keys `raw_extinf`, `name`, `url`,
`source`. -/
structure Channel where
  raw_extinf : String
  name : String
  url : String
  source : String
deriving Repr, DecidableEq

/-- One VOD entry, as built by `VODUpdater.parse_m3u`
(`update_vod_sources.py` lines 52-97).  The dict key `type` is spelled `vtype`
(`type` is a Lean keyword); `logo` is optional because the Python dict simply
lacks the key when the attribute is absent. -/
structure VodItem where
  raw_extinf : String
  vtype : String
  source : String
  name : String
  group : String
  logo : Option String
  url : String
deriving Repr, DecidableEq

/-- The pending entry of the live parser between an `#EXTINF` line and its URL
line: the dict `{'raw_extinf': ..., 'name': ...}`. -/
structure LivePending where
  raw_extinf : String
  name : String
deriving Repr, DecidableEq

/-- The pending entry of the VOD parser. -/
structure VodPending where
  raw_extinf : String
  name : String
  group : String
  logo : Option String
deriving Repr, DecidableEq

/-- A stripped line is a stream URI line when it starts with one of the four
accepted schemes (`update_sources.py` line 85, `update_vod_sources.py` 89-90). -/
def isStreamUrl (s : String) : Bool :=
  pyStartsWith s "http://" || pyStartsWith s "https://" ||
  pyStartsWith s "rtsp://" || pyStartsWith s "rtmp://"

/-! ## Playlist parsing -/

/-- Loop body of `IPTVUpdater.parse_m3u` (`update_sources.py` lines 70-90) over
`enumerate(lines)`: strip each line; skip blank lines; an `#EXTINF` line starts
a pending entry whose name is the stripped text after the first comma, or
`Unknown_<line index>` when the line has no comma; a scheme line combined with
a pending entry emits one channel and clears the pending state. -/
def parse_m3u_go (source_url : String) :
    List (Nat × String) → Option LivePending → List Channel
  | [], _ => []
  | (i, l) :: rest, current =>
    let line := pyStrip l
    if line = "" then parse_m3u_go source_url rest current
    else if pyStartsWith line "#EXTINF" then
      let name :=
        match afterComma line with
        | some t => pyStrip t
        | none => "Unknown_" ++ toString i
      parse_m3u_go source_url rest (some ⟨line, name⟩)
    else if isStreamUrl line then
      match current with
      | some p =>
          { raw_extinf := p.raw_extinf, name := p.name,
            url := line, source := source_url } :: parse_m3u_go source_url rest none
      | none => parse_m3u_go source_url rest none
    else parse_m3u_go source_url rest current

/-- `IPTVUpdater.parse_m3u` (`update_sources.py` lines 64-93). -/
def parse_m3u (content source_url : String) : List Channel :=
  parse_m3u_go source_url (pySplitlines content).enum none

/-- Loop body of `VODUpdater.parse_m3u` (`update_vod_sources.py` lines 58-94):
as the live parser, but the fallback name is `VOD_Unknown_<line index>`, the
`group-title` attribute is extracted with default `'未知分类'`, and the
`tvg-logo` attribute is extracted with no default (the dict key is absent). -/
def parse_m3u_vod_go (source_url : String) :
    List (Nat × String) → Option VodPending → List VodItem
  | [], _ => []
  | (i, l) :: rest, current =>
    let line := pyStrip l
    if line = "" then parse_m3u_vod_go source_url rest current
    else if pyStartsWith line "#EXTINF" then
      let name :=
        match afterComma line with
        | some t => pyStrip t
        | none => "VOD_Unknown_" ++ toString i
      let group :=
        match extractAttr "group-title=\"" line with
        | some v => v
        | none => "未知分类"
      let logo := extractAttr "tvg-logo=\"" line
      parse_m3u_vod_go source_url rest (some ⟨line, name, group, logo⟩)
    else if isStreamUrl line then
      match current with
      | some p =>
          { raw_extinf := p.raw_extinf, vtype := "vod", source := source_url,
            name := p.name, group := p.group, logo := p.logo,
            url := line } :: parse_m3u_vod_go source_url rest none
      | none => parse_m3u_vod_go source_url rest none
    else parse_m3u_vod_go source_url rest current

/-- `VODUpdater.parse_m3u` (`update_vod_sources.py` lines 52-97). -/
def parse_m3u_vod (content source_url : String) : List VodItem :=
  parse_m3u_vod_go source_url (pySplitlines content).enum none

/-! ## Classification -/

def cctv_keywords : List String := ["cctv", "央视", "中央"]

def satellite_keywords : List String :=
  ["卫视", "tvb", "凤凰", "星空", "湖南", "浙江", "江苏", "东方", "北京"]

def local_keywords : List String :=
  ["都市", "新闻", "民生", "公共", "教育", "少儿", "体育", "影视", "综艺"]

def international_keywords : List String :=
  ["bbc", "cnn", "nhk", "fox", "hbo", "disney", "discovery", "国家地理"]

/-- `IPTVUpdater.categorize_channel` (`update_sources.py` lines 205-229):
lowercase the name, then first matching keyword list wins, else `other`. -/
def categorize_channel (channel_name : String) : String :=
  let name_lower := pyLower channel_name
  if cctv_keywords.any (fun k => pyContains name_lower k) then "cctv"
  else if satellite_keywords.any (fun k => pyContains name_lower k) then "satellite"
  else if local_keywords.any (fun k => pyContains name_lower k) then "local"
  else if international_keywords.any (fun k => pyContains name_lower k) then "international"
  else "other"

def movie_keywords : List String :=
  ["电影", "movie", "影院", "剧场", "大片", "film", "cinema"]

def tv_keywords : List String :=
  ["电视剧", "tv", "剧集", "连续剧", "美剧", "韩剧", "日剧", "drama", "series"]

def variety_keywords : List String :=
  ["综艺", "娱乐", "真人秀", "选秀", "脱口秀", "variety", "show"]

def anime_keywords : List String :=
  ["动漫", "动画", "卡通", "anime", "cartoon", "动漫"]

def documentary_keywords : List String :=
  ["纪录片", "纪实", "documentary", "docu"]

/-- `VODUpdater.categorize_vod` (`update_vod_sources.py` lines 99-129):
`vod_group or ''` maps a missing group to the empty string; both inputs are
lowercased; first matching keyword list (on name or group) wins, else `other`. -/
def categorize_vod (vod_name : String) (vod_group : Option String) : String :=
  let name_lower := pyLower vod_name
  let group_lower := pyLower (vod_group.getD "")
  if movie_keywords.any (fun k => pyContains name_lower k) ||
     movie_keywords.any (fun k => pyContains group_lower k) then "movie"
  else if tv_keywords.any (fun k => pyContains name_lower k) ||
     tv_keywords.any (fun k => pyContains group_lower k) then "tv"
  else if variety_keywords.any (fun k => pyContains name_lower k) ||
     variety_keywords.any (fun k => pyContains group_lower k) then "variety"
  else if anime_keywords.any (fun k => pyContains name_lower k) ||
     anime_keywords.any (fun k => pyContains group_lower k) then "anime"
  else if documentary_keywords.any (fun k => pyContains name_lower k) ||
     documentary_keywords.any (fun k => pyContains group_lower k) then "documentary"
  else "other"

/-! ## Deduplication -/

/-- Key-presence deduplication, the shape of the `unique_channels` dict loops
(`update_sources.py` lines 338-344 and 684-690, `update_vod_sources.py` lines
246-252): Python dicts preserve insertion order, so keeping the first entry per
key and listing `values()` yields the retained entries in first-seen order.
`seen` is the key set accumulated so far. -/
def dedup_go {α : Type} (key : α → String) (seen : List String) :
    List α → List α
  | [] => []
  | x :: rest =>
    if key x ∈ seen then dedup_go key seen rest
    else x :: dedup_go key (key x :: seen) rest

/-- URL-keyed deduplication of an entry list. -/
def dedupByUrl {α : Type} (key : α → String) (l : List α) : List α :=
  dedup_go key [] l

/-! ## Quality filter -/

def bad_name_keywords : List String := ["test", "example", "demo", "无效", "测试"]

def good_name_keywords : List String :=
  ["cctv", "央视", "卫视", "湖南", "浙江", "江苏", "北京", "上海", "广东",
   "bbc", "cnn", "disney", "discovery", "national geographic"]

/-- `IPTVUpdater.filter_quality_channels` (`update_sources.py` lines 175-203):
drop every channel whose lowercased name contains a bad keyword; all other
channels are kept (the `bad_keyword in url` test is a no-op `pass`, and both
the good-keyword branch and the final branch append the channel). -/
def filter_quality_channels : List Channel → List Channel
  | [] => []
  | channel :: rest =>
    let name := pyLower channel.name
    if bad_name_keywords.any (fun k => pyContains name k) then
      filter_quality_channels rest
    else if good_name_keywords.any (fun k => pyContains name k) then
      channel :: filter_quality_channels rest
    else channel :: filter_quality_channels rest

/-! ## Reachability probing -/

/-- Transport-level outcome of the single `requests.head` call issued by the
executed prober, matching its `except` clauses (`update_sources.py` lines
112-128): a response with a status code, or one of the caught exceptions. -/
inductive HeadOutcome where
  | status (code : Nat)
  | timeout
  | connError
  | reqError
  | otherError
deriving Repr, DecidableEq

/-- Split a character list at the first occurrence of `sep`, if any. -/
def splitAtSubstr (sep : List Char) : List Char → Option (List Char × List Char)
  | [] => none
  | c :: cs =>
    if sep.isPrefixOf (c :: cs) then some ([], List.drop sep.length (c :: cs))
    else
      match splitAtSubstr sep cs with
      | some (pre, post) => some (c :: pre, post)
      | none => none

/-- Model of the `urlparse(url).scheme` / `.netloc` check of
`update_sources.py` lines 100-102: the URL must contain `scheme://netloc` with
both parts non-empty (the netloc runs up to the next `/`). -/
def hasSchemeAndNetloc (url : String) : Bool :=
  match splitAtSubstr "://".data url.data with
  | some (scheme, rest) =>
      !scheme.isEmpty && !(rest.takeWhile (fun c => c ≠ '/')).isEmpty
  | none => false

/-- `IPTVUpdater.is_url_accessible` (`update_sources.py` lines 95-128), the
prober bound to the class and invoked by `validate_channels_parallel`:
malformed URLs are rejected without a network call; YouTube/Twitch hosts are
short-circuited to reachable; otherwise a single HEAD probe decides, with
success statuses 200/302/301.  There is no GET fallback in this revision. -/
def is_url_accessible (channel : Channel) (head : HeadOutcome) : Bool × String :=
  let url := channel.url
  if !hasSchemeAndNetloc url then (false, "无效的URL格式")
  else if pyContains url "youtube.com" || pyContains url "youtu.be" then
    (true, "YouTube链接（跳过验证）")
  else if pyContains url "twitch.tv" then (true, "Twitch链接（跳过验证）")
  else
    match head with
    | .status code =>
        if code = 200 || code = 302 || code = 301 then
          (true, "状态码: " ++ toString code)
        else (false, "状态码: " ++ toString code)
    | .timeout => (false, "连接超时")
    | .connError => (false, "连接错误")
    | .reqError => (false, "请求异常")
    | .otherError => (false, "未知错误")

/-- The superseded `is_url_accessible` revision (`update_sources.py` lines
461-473): a HEAD request (`none` = any exception), falling back on exception to
a streaming GET aborted after the headers; HEAD accepts 200/302/301, the GET
fallback accepts only 200. -/
def is_url_accessible_v2 (head : Option Nat) (get : Option Nat) : Bool :=
  match head with
  | some code => code = 200 || code = 302 || code = 301
  | none =>
    match get with
    | some code => code = 200
    | none => false

/-- `IPTVUpdater.validate_channels_parallel` (`update_sources.py` lines
130-173).  The thread pool probes every submitted channel with
`is_url_accessible` and keeps those that probe valid; completion order is
nondeterministic, but each channel's outcome depends only on its own probe, so
the retained set is the probe-filtered input, modelled here in submission
order.  `head_of` gives the transport outcome of each channel's HEAD probe. -/
def validate_channels_parallel (head_of : Channel → HeadOutcome)
    (channels : List Channel) : List Channel :=
  channels.filter (fun c => (is_url_accessible c (head_of c)).1)

/-! ## Categorization into buckets -/

/-- The category dict literal of `update_sources.py` lines 364 and 610-613, in
insertion (= iteration) order. -/
def category_keys : List String :=
  ["cctv", "satellite", "local", "international", "other"]

/-- The empty category dict. -/
def init_categorized : List (String × List Channel) :=
  category_keys.map (fun k => (k, []))

/-- `categorized_channels[category].append(channel)` on the association-list
model of the dict. -/
def add_to_category (d : List (String × List Channel)) (k : String)
    (c : Channel) : List (String × List Channel) :=
  d.map (fun p => if p.1 = k then (p.1, p.2 ++ [c]) else p)

/-- The categorization loops of `update_sources.py` lines 363-367 and 615-617:
append every channel to the bucket of its category. -/
def categorize_all (channels : List Channel) : List (String × List Channel) :=
  channels.foldl (fun d c => add_to_category d (categorize_channel c.name) c)
    init_categorized

/-- Look up one bucket of the category dict. -/
def bucket (d : List (String × List Channel)) (k : String) : List Channel :=
  match d.lookup k with
  | some l => l
  | none => []

/-! ## VOD playlist rendering -/

/-- `VODUpdater.generate_m3u_content` (`update_vod_sources.py` lines 131-159):
a header block (format marker, encoding marker, the two strftime timestamps
passed in as `genTime`/`updTime`, type marker, optional uppercased category,
item count, disclaimer, blank line) followed by each item's
`raw_extinf` line and `url` line. -/
def generate_m3u_content (items : List VodItem) (category : Option String)
    (genTime updTime : String) : String :=
  let header : String :=
    match category with
    | some c =>
        "#EXTM3U\n#EXTENC: UTF-8\n# Generated: " ++ genTime ++
        "\n# Updated: " ++ updTime ++ "\n# Type: 点播\n# Category: " ++
        pyUpper c ++ "\n# Total Items: " ++ toString items.length ++
        "\n# For personal testing and research purposes only.\n\n"
    | none =>
        "#EXTM3U\n#EXTENC: UTF-8\n# Generated: " ++ genTime ++
        "\n# Updated: " ++ updTime ++ "\n# Type: 点播\n# Total Items: " ++
        toString items.length ++
        "\n# For personal testing and research purposes only.\n\n"
  items.foldl (fun content it => content ++ it.raw_extinf ++ "\n" ++ it.url ++ "\n")
    header

/-! ## The orchestrators -/

/-- Result of the shared fetch stage: the concatenated parsed channels, the
final successful-source count, the successful-primary count after the primary
loop, and the backup URLs actually passed to `fetch_source`. -/
structure FetchResult where
  all_channels : List Channel
  successful_sources : Nat
  primary_successful : Nat
  attempted_backups : List String
deriving Repr

/-- The fetch stage shared verbatim by both `run` revisions
(`update_sources.py` lines 315-335 and 650-677): fetch every primary source;
`if content:` counts a source as successful only when the fetched body is
truthy, i.e. neither `None` nor the empty string, and only then parses it.
Then, exactly when the successful count is zero and the backup list is
non-empty (Python list truthiness), fetch every backup source the same way. -/
def fetch_stage (fetch : String → Option String)
    (sources backup_sources : List String) : FetchResult :=
  let prim := sources.foldl
    (fun (acc : List Channel × Nat) url =>
      match fetch url with
      | some content =>
          if content = "" then acc
          else (acc.1 ++ parse_m3u content url, acc.2 + 1)
      | none => acc) ([], 0)
  if prim.2 = 0 && !backup_sources.isEmpty then
    let bk := backup_sources.foldl
      (fun (acc : List Channel × Nat) url =>
        match fetch url with
        | some content =>
            if content = "" then acc
            else (acc.1 ++ parse_m3u content url, acc.2 + 1)
        | none => acc) prim
    { all_channels := bk.1, successful_sources := bk.2,
      primary_successful := prim.2, attempted_backups := backup_sources }
  else
    { all_channels := prim.1, successful_sources := prim.2,
      primary_successful := prim.2, attempted_backups := [] }

/-- The statistics dict of the executed `run` (`update_sources.py` lines
390-401).  `update_time`, `duration_seconds` and `validation_seconds` are
wall-clock effects and are not modelled; `validity_ratio` is the exact
rational. -/
structure LiveStats where
  sources_attempted : Nat
  sources_successful : Nat
  total_channels : Nat
  quality_channels : Nat
  valid_channels : Nat
  validityRatio : ℚ
  categories : List (String × Nat)
deriving Repr

/-- Everything observable about one execution of the `run` bound to the class:
the intermediate entry lists, the category dict, the ordered list of files
written, and the statistics record. -/
structure LiveRunResult where
  successful_sources : Nat
  unique_channels : List Channel
  quality_channels : List Channel
  valid_channels : List Channel
  categorized : List (String × List Channel)
  files : List String
  stats : LiveStats
deriving Repr

/-- The executed `IPTVUpdater.run` (`update_sources.py` lines 306-410): fetch
with backup fallback, URL-keyed dedup, unconditional write of
`outputs/full_raw.m3u`, quality filter, parallel validation (which writes
`logs/validation_details.json`), categorization of the valid channels, write of
`outputs/full_validated.m3u` and of one file per non-empty category, then log,
statistics and README writes.  Note there is no empty-data guard in this
revision: the writes happen even when every source failed. -/
def run (fetch : String → Option String) (head_of : Channel → HeadOutcome)
    (sources backup_sources : List String) : LiveRunResult :=
  let fr := fetch_stage fetch sources backup_sources
  let unique := dedupByUrl Channel.url fr.all_channels
  let quality := filter_quality_channels unique
  let valid := validate_channels_parallel head_of quality
  let cat := categorize_all valid
  let validity : ℚ :=
    if quality.length > 0 then (valid.length : ℚ) / (quality.length : ℚ) else 0
  let catFiles := (cat.filter (fun p => !p.2.isEmpty)).map
    (fun p => "outputs/" ++ p.1 ++ ".m3u")
  { successful_sources := fr.successful_sources
    unique_channels := unique
    quality_channels := quality
    valid_channels := valid
    categorized := cat
    files := ["outputs/full_raw.m3u", "logs/validation_details.json",
        "outputs/full_validated.m3u"] ++ catFiles ++
      ["logs/latest_update.log", "outputs/stats.json", "README.md"]
    stats :=
      { sources_attempted := sources.length + backup_sources.length
        sources_successful := fr.successful_sources
        total_channels := unique.length
        quality_channels := quality.length
        valid_channels := valid.length
        validityRatio := validity
        categories := cat.map (fun p => (p.1, p.2.length)) } }

/-- The statistics dict of the superseded `run` revision (`update_sources.py`
lines 716-725). -/
structure Run2Stats where
  sources_attempted : Nat
  sources_successful : Nat
  total_channels : Nat
  estimated_valid_channels : Nat
  validityRatio : ℚ
  categories : List (String × Nat)
deriving Repr, DecidableEq

/-- Observable outcome of the superseded `run` revision. -/
structure Run2Result where
  halted_no_data : Bool
  successful_sources : Nat
  unique_channels : List Channel
  files : List String
  stats : Option Run2Stats
deriving Repr

/-- The superseded `run` revision (`update_sources.py` lines 638-752): same
fetch stage, then `if not all_channels: log("错误：无法从任何源获取频道数据");
return` — the explicit no-data halt, taken before any playlist file is written.
Otherwise dedup, sample the first `min(100, n)` unique channels with the
`is_url_accessible_v2` probe, extrapolate an estimated valid count
(`int(n * ratio)`, modelled with exact rational floor), write `outputs/full.m3u`
plus one file per non-empty category via `generate_complete_playlist`, then
statistics, log and README writes. -/
def run_v2 (fetch : String → Option String)
    (head_of get_of : String → Option Nat)
    (sources backup_sources : List String) : Run2Result :=
  let fr := fetch_stage fetch sources backup_sources
  if fr.all_channels.isEmpty then
    { halted_no_data := true, successful_sources := fr.successful_sources,
      unique_channels := [], files := [], stats := none }
  else
    let unique := dedupByUrl Channel.url fr.all_channels
    let sample_size := min 100 unique.length
    let valid_count :=
      ((unique.take sample_size).filter
        (fun c => is_url_accessible_v2 (head_of c.url) (get_of c.url))).length
    let ratio : ℚ :=
      if sample_size > 0 then (valid_count : ℚ) / (sample_size : ℚ) else 0
    let estimated := ((unique.length : ℚ) * ratio).floor.toNat
    let cat := categorize_all unique
    let catFiles := (cat.filter (fun p => !p.2.isEmpty)).map
      (fun p => "outputs/" ++ p.1 ++ ".m3u")
    { halted_no_data := false
      successful_sources := fr.successful_sources
      unique_channels := unique
      files := ["outputs/full.m3u"] ++ catFiles ++
        ["outputs/stats.json", "logs/latest_update.log", "README.md"]
      stats := some
        { sources_attempted := sources.length + backup_sources.length
          sources_successful := fr.successful_sources
          total_channels := unique.length
          estimated_valid_channels := estimated
          validityRatio := ratio
          categories := cat.map (fun p => (p.1, p.2.length)) } }

/-! ## Proof-side definitions

These do not model new source code; they instrument or characterize the
definitions above so that properties of parser output can be stated. -/

/-- The name `parse_m3u_go` assigns to a pending entry created from the
stripped `#EXTINF` line `raw` at line index `i`. -/
def nameFromRaw (raw : String) (i : Nat) : String :=
  match afterComma raw with
  | some t => pyStrip t
  | none => "Unknown_" ++ toString i

/-- Instrumented copy of `parse_m3u_go` that additionally tags the pending
entry and each emitted channel with the line index of its `#EXTINF` line;
`parse_m3u_go` is its tag-erasure (`parse_m3u_go_idx_snd`). -/
def parse_m3u_go_idx (source_url : String) :
    List (Nat × String) → Option (Nat × LivePending) → List (Nat × Channel)
  | [], _ => []
  | (i, l) :: rest, current =>
    let line := pyStrip l
    if line = "" then parse_m3u_go_idx source_url rest current
    else if pyStartsWith line "#EXTINF" then
      let name :=
        match afterComma line with
        | some t => pyStrip t
        | none => "Unknown_" ++ toString i
      parse_m3u_go_idx source_url rest (some (i, ⟨line, name⟩))
    else if isStreamUrl line then
      match current with
      | some (j, p) =>
          (j, { raw_extinf := p.raw_extinf, name := p.name,
                url := line, source := source_url }) ::
            parse_m3u_go_idx source_url rest none
      | none => parse_m3u_go_idx source_url rest none
    else parse_m3u_go_idx source_url rest current

/-- The group value `parse_m3u_vod_go` derives from a stripped `#EXTINF`
line. -/
def vodGroupFromRaw (raw : String) : String :=
  match extractAttr "group-title=\"" raw with
  | some v => v
  | none => "未知分类"

/-- Internal consistency of a VOD item's `name` with its metadata line: the
stripped text after the first comma when there is one (a fallback name is
otherwise index-dependent and not checked here). -/
def vodNameConsistent (e : VodItem) : Bool :=
  match afterComma e.raw_extinf with
  | some t => e.name == pyStrip t
  | none => true

/-- Well-formedness of a VOD item, as guaranteed for every item produced by
`parse_m3u_vod` (`parse_m3u_vod_wf`): the metadata and URL lines are
strip-fixed single lines of the right shape, and `group`, `logo`, `name` are
the values the parser derives from the metadata line. -/
def VodItemWF (e : VodItem) : Bool :=
  (pyStrip e.raw_extinf == e.raw_extinf) &&
  pyStartsWith e.raw_extinf "#EXTINF" &&
  !(decide ('\n' ∈ e.raw_extinf.data)) &&
  (pyStrip e.url == e.url) &&
  isStreamUrl e.url &&
  !(decide ('\n' ∈ e.url.data)) &&
  (e.group == vodGroupFromRaw e.raw_extinf) &&
  (e.logo == extractAttr "tvg-logo=\"" e.raw_extinf) &&
  vodNameConsistent e

/-- Well-formedness of a pending VOD entry between its `#EXTINF` line and its
URL line. -/
def VodPendingWF (p : VodPending) : Bool :=
  (pyStrip p.raw_extinf == p.raw_extinf) &&
  pyStartsWith p.raw_extinf "#EXTINF" &&
  !(decide ('\n' ∈ p.raw_extinf.data)) &&
  (p.group == vodGroupFromRaw p.raw_extinf) &&
  (p.logo == extractAttr "tvg-logo=\"" p.raw_extinf) &&
  (match afterComma p.raw_extinf with
   | some t => p.name == pyStrip t
   | none => true)

/-- The lines of the header block emitted by `generate_m3u_content` with
`category = none`, as character lists (the last entry is the blank line that
terminates the header). -/
def headerLines (genTime updTime : String) (n : Nat) : List (List Char) :=
  ["#EXTM3U".data, "#EXTENC: UTF-8".data,
   ("# Generated: " ++ genTime).data, ("# Updated: " ++ updTime).data,
   "# Type: 点播".data, ("# Total Items: " ++ toString n).data,
   "# For personal testing and research purposes only.".data, []]

/-- Value of a decimal digit character. -/
def digitVal (c : Char) : Nat := c.toNat - '0'.toNat

/-- Read a decimal digit string back into a number; left inverse of
`Nat.toDigits 10` (`decodeDecimal_toDigits`). -/
def decodeDecimal (l : List Char) : Nat :=
  l.foldl (fun a c => 10 * a + digitVal c) 0

/-- The bad-name test of `filter_quality_channels`. -/
def hasBadName (c : Channel) : Bool :=
  bad_name_keywords.any (fun k => pyContains (pyLower c.name) k)

/-! ## Supporting lemmas: deduplication -/

/-- Deduplication only drops elements: the output is a sublist of the input,
so retained entries appear verbatim and in first-seen input order. -/
theorem dedup_go_sublist {α : Type} (key : α → String) (l : List α) :
    ∀ seen, List.Sublist (dedup_go key seen l) l := by
  induction l with
  | nil => intro seen; simp [dedup_go]
  | cons x rest ih =>
    intro seen
    simp only [dedup_go]
    split
    · exact (ih seen).cons x
    · exact (ih (key x :: seen)).cons₂ x

/-- No retained entry's key is in the already-seen key set. -/
theorem dedup_go_key_not_seen {α : Type} (key : α → String) (l : List α) :
    ∀ seen, ∀ e ∈ dedup_go key seen l, key e ∉ seen := by
  induction l with
  | nil => intro seen e he; simp [dedup_go] at he
  | cons x rest ih =>
    intro seen e he
    simp only [dedup_go] at he
    split at he
    · exact ih seen e he
    · rcases List.mem_cons.1 he with rfl | hmem
      · assumption
      · have := ih (key x :: seen) e hmem
        exact fun hs => this (List.mem_cons_of_mem _ hs)

/-- Retained entries have pairwise distinct keys. -/
theorem dedup_go_pairwise {α : Type} (key : α → String) (l : List α) :
    ∀ seen, List.Pairwise (fun a b => key a ≠ key b) (dedup_go key seen l) := by
  induction l with
  | nil => intro seen; simp [dedup_go]
  | cons x rest ih =>
    intro seen
    simp only [dedup_go]
    split
    · exact ih seen
    · refine List.Pairwise.cons (fun b hb => ?_) (ih (key x :: seen))
      have := dedup_go_key_not_seen key rest (key x :: seen) b hb
      exact fun hx => this (hx ▸ List.mem_cons_self _ _)

/-- Every retained entry is, field for field, the first entry of the input
with its key. -/
theorem dedup_go_find? {α : Type} (key : α → String) (l : List α) :
    ∀ seen, ∀ e ∈ dedup_go key seen l, l.find? (fun c => key c == key e) = some e := by
  induction l with
  | nil => intro seen e he; simp [dedup_go] at he
  | cons x rest ih =>
    intro seen e he
    simp only [dedup_go] at he
    split at he
    · rename_i hseen
      have hne : key x ≠ key e := by
        intro h
        exact dedup_go_key_not_seen key rest seen e he (h ▸ hseen)
      rw [List.find?_cons_of_neg _ (by simpa using hne)]
      exact ih seen e he
    · rename_i hseen
      rcases List.mem_cons.1 he with rfl | hmem
      · rw [List.find?_cons_of_pos _ (by simp)]
      · have hnotin := dedup_go_key_not_seen key rest (key x :: seen) e hmem
        have hne : key x ≠ key e := fun h => hnotin (h ▸ List.mem_cons_self _ _)
        rw [List.find?_cons_of_neg _ (by simpa using hne)]
        exact ih (key x :: seen) e hmem

/-! ## C3: deduplication -/

/-- **C3**: for every input entry list, URL-keyed deduplication returns a list
in which no two entries share a `url`, whose length is at most the input
length, which is a sublist of the input (entries appear verbatim, in
first-seen input order), and in which every retained entry is, field for
field, the first occurrence of its `url` in the input — later duplicates are
dropped whole, never merged. -/
theorem claim3_dedup_spec (l : List Channel) :
    List.Pairwise (fun a b => a.url ≠ b.url) (dedupByUrl Channel.url l) ∧
    (dedupByUrl Channel.url l).length ≤ l.length ∧
    List.Sublist (dedupByUrl Channel.url l) l ∧
    ∀ e ∈ dedupByUrl Channel.url l, l.find? (fun c => c.url == e.url) = some e :=
  ⟨dedup_go_pairwise Channel.url l [], (dedup_go_sublist Channel.url l []).length_le,
   dedup_go_sublist Channel.url l [], dedup_go_find? Channel.url l []⟩

/-- Witness for C3 at a concrete two-source duplicate: the first occurrence of
`u1` is retained field-for-field. -/
theorem claim3_dedup_witness :
    List.find? (fun c => c.url == "u1")
        [(⟨"a", "n1", "u1", "s1"⟩ : Channel), ⟨"b", "n2", "u1", "s2"⟩]
      = some ⟨"a", "n1", "u1", "s1"⟩ :=
  (claim3_dedup_spec [⟨"a", "n1", "u1", "s1"⟩, ⟨"b", "n2", "u1", "s2"⟩]).2.2.2
    ⟨"a", "n1", "u1", "s1"⟩ (by decide)

/-! ## C9: classifier determinism and case-insensitivity -/

/-- **C9**: both classifiers are pure functions whose result depends only on
the lowercased inputs, hence they are deterministic and case-insensitive:
inputs equal up to letter case classify identically, and in particular
`CCTV-1` and `cctv-1` both land in the national-broadcaster category. -/
theorem claim9_classifier_case_insensitive :
    (∀ n n', pyLower n = pyLower n' →
      categorize_channel n = categorize_channel n') ∧
    (∀ (n : String) (g : Option String) (n' : String) (g' : Option String),
      pyLower n = pyLower n' → pyLower (g.getD "") = pyLower (g'.getD "") →
      categorize_vod n g = categorize_vod n' g') ∧
    categorize_channel "CCTV-1" = categorize_channel "cctv-1" ∧
    categorize_channel "CCTV-1" = "cctv" ∧
    categorize_vod "CCTV-1" (some "") = categorize_vod "cctv-1" (some "") := by
  refine ⟨?_, ?_, by decide, by decide, by decide⟩
  · intro n n' h
    unfold categorize_channel
    rw [h]
  · intro n g n' g' hn hg
    unfold categorize_vod
    rw [hn, hg]

/-- Witness for C9: a mixed-case pair with equal lowercasings classifies
identically. -/
theorem claim9_witness :
    categorize_channel "CcTv-1" = categorize_channel "ccTV-1" :=
  claim9_classifier_case_insensitive.1 "CcTv-1" "ccTV-1" (by decide)

/-! ## C2: backup-source policy -/

/-- The success counter of a fetch loop counts exactly the URLs whose fetch
returns a truthy (non-`None`, non-empty) body. -/
theorem fetch_fold_snd (fetch : String → Option String) (urls : List String) :
    ∀ acc : List Channel × Nat,
      (urls.foldl (fun acc url =>
        match fetch url with
        | some content =>
            if content = "" then acc
            else (acc.1 ++ parse_m3u content url, acc.2 + 1)
        | none => acc) acc).2
      = acc.2 + (urls.filter (fun u => (fetch u).getD "" != "")).length := by
  induction urls with
  | nil => intro acc; simp
  | cons u rest ih =>
    intro acc
    simp only [List.foldl_cons, List.filter_cons]
    cases h : fetch u with
    | none =>
      simp only [h, Option.getD_none, bne_self_eq_false, Bool.false_eq_true,
        if_false]
      exact ih acc
    | some c =>
      by_cases hc : c = ""
      · subst hc
        simp only [h, Option.getD_some, bne_self_eq_false, Bool.false_eq_true,
          if_false, if_pos rfl]
        exact ih acc
      · have hbne : (c != "") = true := bne_iff_ne.2 hc
        simp only [h, Option.getD_some, hbne, if_true, if_neg hc]
        rw [ih]
        simp only [List.length_cons]
        omega

/-- The primary success count of the fetch stage is the number of primary
sources whose fetch returned a truthy body. -/
theorem fetch_stage_primary (fetch : String → Option String)
    (sources backup_sources : List String) :
    (fetch_stage fetch sources backup_sources).primary_successful =
      (sources.filter (fun u => (fetch u).getD "" != "")).length := by
  simp only [fetch_stage]
  split <;> simpa using fetch_fold_snd fetch sources ([], 0)

/-- The backup URLs handed to `fetch_source`: all of them when the primary
loop succeeded zero times and backups exist, none otherwise. -/
theorem fetch_stage_backups (fetch : String → Option String)
    (sources backup_sources : List String) :
    (fetch_stage fetch sources backup_sources).attempted_backups =
      (if (fetch_stage fetch sources backup_sources).primary_successful = 0 ∧
          backup_sources ≠ [] then backup_sources else []) := by
  rw [fetch_stage_primary]
  simp only [fetch_stage]
  have h2 := fetch_fold_snd fetch sources ([], 0)
  split
  next hc =>
    simp only [Bool.and_eq_true, decide_eq_true_eq, Bool.not_eq_true',
      List.isEmpty_eq_false_iff_exists_mem] at hc
    rw [if_pos]
    exact ⟨by omega, by rcases hc.2 with ⟨x, hx⟩; exact List.ne_nil_of_mem hx⟩
  next hc =>
    simp only [Bool.and_eq_true, decide_eq_true_eq, Bool.not_eq_true',
      List.isEmpty_eq_false_iff_exists_mem, not_and] at hc
    rw [if_neg]
    rintro ⟨hz, hne⟩
    rcases List.exists_mem_of_ne_nil _ hne with ⟨x, hx⟩
    exact absurd ⟨x, hx⟩ (hc (by omega))

/-- **C2**: the orchestrator's fetch stage consults the backup list if and
only if the count of successfully fetched primary sources (those whose fetch
returned a truthy, i.e. non-`None` and non-empty, body) is exactly zero and
the backup list is non-empty; when it does, it attempts every backup source;
when at least one primary succeeded, no backup source is fetched. -/
theorem claim2_backup_iff_all_primaries_fail (fetch : String → Option String)
    (sources backup_sources : List String) :
    (fetch_stage fetch sources backup_sources).primary_successful =
      (sources.filter (fun u => (fetch u).getD "" != "")).length ∧
    ((fetch_stage fetch sources backup_sources).attempted_backups ≠ [] ↔
      ((fetch_stage fetch sources backup_sources).primary_successful = 0 ∧
        backup_sources ≠ [])) ∧
    ((fetch_stage fetch sources backup_sources).primary_successful = 0 ∧
        backup_sources ≠ [] →
      (fetch_stage fetch sources backup_sources).attempted_backups =
        backup_sources) ∧
    (0 < (fetch_stage fetch sources backup_sources).primary_successful →
      (fetch_stage fetch sources backup_sources).attempted_backups = []) := by
  refine ⟨fetch_stage_primary fetch sources backup_sources, ?_, ?_, ?_⟩
  · rw [fetch_stage_backups]
    split
    next hc => simpa [hc.2] using hc
    next hc => simpa using hc
  · intro hc
    rw [fetch_stage_backups, if_pos hc]
  · intro hpos
    rw [fetch_stage_backups, if_neg]
    rintro ⟨hz, _⟩
    omega

/-- Witness for C2: a primary returning a non-empty body suppresses the
backup fetch, while a primary returning a 200-with-empty-body (falsy in
Python, hence not a success) leaves zero successes and triggers the backup
fetch. -/
theorem claim2_witness :
    (fetch_stage (fun u => if u = "p1" then some "#EXTM3U" else none)
      ["p1"] ["b1"]).attempted_backups = [] ∧
    (fetch_stage (fun u => if u = "p1" then some "" else none)
      ["p1"] ["b1"]).attempted_backups = ["b1"] :=
  ⟨(claim2_backup_iff_all_primaries_fail
      (fun u => if u = "p1" then some "#EXTM3U" else none)
      ["p1"] ["b1"]).2.2.2 (by decide),
   (claim2_backup_iff_all_primaries_fail
      (fun u => if u = "p1" then some "" else none)
      ["p1"] ["b1"]).2.2.1 ⟨by decide, by decide⟩⟩

/-! ## Categorization infrastructure (C5, C10) -/

/-- Appending to one bucket of a keyed map of buckets. -/
theorem add_to_category_map (ks : List String) (acc : String → List Channel)
    (cat : String) (c : Channel) :
    add_to_category (ks.map (fun k => (k, acc k))) cat c =
      ks.map (fun k => (k, if k = cat then acc k ++ [c] else acc k)) := by
  simp only [add_to_category, List.map_map]
  apply List.map_congr_left
  intro k _
  by_cases hk : k = cat <;> simp [hk, Function.comp]

/-- The categorization fold sends each channel to the bucket of its category:
every bucket ends up holding exactly the channels classified to its key, in
input order. -/
theorem categorize_fold_eq (chs : List Channel) :
    ∀ acc : String → List Channel,
      chs.foldl (fun d c => add_to_category d (categorize_channel c.name) c)
        (category_keys.map (fun k => (k, acc k))) =
      category_keys.map (fun k =>
        (k, acc k ++ chs.filter (fun c => categorize_channel c.name == k))) := by
  induction chs with
  | nil => intro acc; simp
  | cons c rest ih =>
    intro acc
    simp only [List.foldl_cons]
    rw [add_to_category_map,
      ih (fun k => if k = categorize_channel c.name then acc k ++ [c] else acc k)]
    apply List.map_congr_left
    intro k _
    by_cases hk : categorize_channel c.name = k
    · simp [List.filter_cons, hk]
    · have hk' : ¬k = categorize_channel c.name := fun h => hk h.symm
      simp [List.filter_cons, hk, hk']

/-- Closed form of `categorize_all`. -/
theorem categorize_all_eq (chs : List Channel) :
    categorize_all chs = category_keys.map (fun k =>
      (k, chs.filter (fun c => categorize_channel c.name == k))) := by
  have h := categorize_fold_eq chs (fun _ => [])
  simpa [categorize_all, init_categorized] using h

/-- The classifier always lands in one of the five fixed categories. -/
theorem categorize_channel_mem (n : String) :
    categorize_channel n ∈ category_keys := by
  simp only [categorize_channel]
  split_ifs <;> simp [category_keys]

/-- Looking up a key in a map built over a key list. -/
theorem lookup_map_self (ks : List String) (f : String → List Channel)
    (k : String) :
    (ks.map (fun x => (x, f x))).lookup k =
      (if k ∈ ks then some (f k) else none) := by
  induction ks with
  | nil => simp
  | cons a rest ih =>
    simp only [List.map_cons, List.lookup_cons]
    by_cases hk : k = a
    · simp [hk]
    · have : (k == a) = false := by simpa using hk
      simp [this, ih, hk]

/-- Bucket membership after categorization: a channel sits in bucket `k` iff
`k` is one of the five keys and the classifier assigns `k` to it. -/
theorem mem_bucket_iff (chs : List Channel) (k : String) (c : Channel) :
    c ∈ bucket (categorize_all chs) k ↔
      k ∈ category_keys ∧ c ∈ chs ∧ categorize_channel c.name = k := by
  rw [categorize_all_eq]
  unfold bucket
  rw [lookup_map_self]
  by_cases hk : k ∈ category_keys
  · simp [hk, List.mem_filter]
  · simp [hk]

/-- The bucket sizes of the categorization fold sum to the number of
classified channels: the buckets partition their input. -/
theorem sum_categories (chs : List Channel) :
    ((categorize_all chs).map (fun p => p.2.length)).sum = chs.length := by
  rw [categorize_all_eq]
  simp only [category_keys, List.map_cons, List.map_nil, List.sum_cons,
    List.sum_nil]
  induction chs with
  | nil => simp
  | cons c rest ih =>
    have hc := categorize_channel_mem c.name
    simp only [category_keys, List.mem_cons, List.not_mem_nil, or_false] at hc
    simp only [List.filter_cons]
    rcases hc with h | h | h | h | h
    all_goals rw [h]
    all_goals simp only [beq_iff_eq, reduceIte]
    all_goals split_ifs
    all_goals simp_all
    all_goals omega

/-- Definitional characterization of the executed `run`'s fields in terms of
the pipeline stages. -/
theorem run_fields (fetch : String → Option String)
    (head_of : Channel → HeadOutcome) (sources backup_sources : List String) :
    (run fetch head_of sources backup_sources).unique_channels =
      dedupByUrl Channel.url
        (fetch_stage fetch sources backup_sources).all_channels ∧
    (run fetch head_of sources backup_sources).quality_channels =
      filter_quality_channels
        (run fetch head_of sources backup_sources).unique_channels ∧
    (run fetch head_of sources backup_sources).valid_channels =
      validate_channels_parallel head_of
        (run fetch head_of sources backup_sources).quality_channels ∧
    (run fetch head_of sources backup_sources).categorized =
      categorize_all (run fetch head_of sources backup_sources).valid_channels ∧
    (run fetch head_of sources backup_sources).stats.valid_channels =
      (run fetch head_of sources backup_sources).valid_channels.length ∧
    (run fetch head_of sources backup_sources).stats.categories =
      (run fetch head_of sources backup_sources).categorized.map
        (fun p => (p.1, p.2.length)) ∧
    (run fetch head_of sources backup_sources).stats.total_channels =
      (run fetch head_of sources backup_sources).unique_channels.length :=
  ⟨rfl, rfl, rfl, rfl, rfl, rfl, rfl⟩

/-! ## C10: quality filter -/

/-- The quality filter is exactly the bad-name filter: the good-keyword branch
and the final branch both keep the channel, and the URL heuristic is a
no-op. -/
theorem filter_quality_eq_filter (l : List Channel) :
    filter_quality_channels l = l.filter (fun c => !hasBadName c) := by
  induction l with
  | nil => rfl
  | cons c rest ih =>
    simp only [filter_quality_channels, List.filter_cons, hasBadName]
    by_cases h : bad_name_keywords.any (fun k => pyContains (pyLower c.name) k) = true
    · simp only [h, if_true, Bool.not_true, Bool.false_eq_true, if_false]
      exact ih
    · simp only [Bool.not_eq_true] at h
      simp only [h, Bool.false_eq_true, if_false, Bool.not_false, if_true]
      split <;> exact congrArg (c :: ·) ih

/-- **C10**: before reachability probing, the quality filter silently removes
every channel whose lowercased name contains one of the bad-name substrings
(`test`, `example`, `demo`, `无效`, `测试`); consequently, whatever the probe
outcomes, such a channel is never in the validated channel list, never in any
category bucket, and the valid-channel statistic counts a list that excludes
it. -/
theorem claim10_quality_filter :
    (∀ (l : List Channel) (c : Channel),
      c ∈ filter_quality_channels l → hasBadName c = false) ∧
    (∀ (fetch : String → Option String) (head_of : Channel → HeadOutcome)
        (sources backup_sources : List String) (c : Channel),
      hasBadName c = true →
      c ∉ (run fetch head_of sources backup_sources).valid_channels ∧
      (∀ k, c ∉ bucket (run fetch head_of sources backup_sources).categorized k) ∧
      (run fetch head_of sources backup_sources).stats.valid_channels =
        (run fetch head_of sources backup_sources).valid_channels.length) := by
  have hmem : ∀ (l : List Channel) (c : Channel),
      c ∈ filter_quality_channels l → hasBadName c = false := by
    intro l c hc
    rw [filter_quality_eq_filter] at hc
    have := (List.mem_filter.1 hc).2
    simpa using this
  refine ⟨hmem, ?_⟩
  intro fetch head_of sources backup_sources c hbad
  obtain ⟨hu, hq, hv, hcat, hsv, _, _⟩ := run_fields fetch head_of sources backup_sources
  have hnotvalid : c ∉ (run fetch head_of sources backup_sources).valid_channels := by
    intro hmem'
    rw [hv] at hmem'
    unfold validate_channels_parallel at hmem'
    have hq' := (List.mem_filter.1 hmem').1
    rw [hq] at hq'
    have := hmem _ c hq'
    rw [hbad] at this
    exact Bool.true_eq_false.mp this
  refine ⟨hnotvalid, ?_, hsv⟩
  intro k hbk
  rw [hcat] at hbk
  exact hnotvalid ((mem_bucket_iff _ k c).1 hbk).2.1

/-- Witness for C10: a channel literally named `test` survives no stage of a
run in which its URL would probe fine. -/
theorem claim10_witness :
    (⟨"#EXTINF:-1,test", "test", "http://a/1", "s1"⟩ : Channel) ∉
      (run (fun _ => some "#EXTINF:-1,test\nhttp://a/1")
        (fun _ => HeadOutcome.status 200) ["s1"] []).valid_channels :=
  ((claim10_quality_filter.2 (fun _ => some "#EXTINF:-1,test\nhttp://a/1")
    (fun _ => HeadOutcome.status 200) ["s1"] []
    ⟨"#EXTINF:-1,test", "test", "http://a/1", "s1"⟩ (by decide)).1)

/-! ## C5: category partition and the statistics sum -/

/-- C5 counterexample: one succeeding source whose only channel is named
`test channel`.  It is deduplicated (so `total_channels = 1`) but removed by
the quality filter before classification, so every bucket is empty and the
per-category counts in the statistics sum to 0, not to the deduplicated
total; the entry is in no bucket at all. -/
theorem claim5_sum_ne_total_counterexample :
    ((run (fun _ => some "#EXTINF:-1,test channel\nhttp://a/1")
        (fun _ => HeadOutcome.status 200) ["s1"] []).stats.categories.map
        Prod.snd).sum = 0 ∧
    (run (fun _ => some "#EXTINF:-1,test channel\nhttp://a/1")
        (fun _ => HeadOutcome.status 200) ["s1"] []).stats.total_channels = 1 ∧
    ((run (fun _ => some "#EXTINF:-1,test channel\nhttp://a/1")
        (fun _ => HeadOutcome.status 200) ["s1"] []).unique_channels.map
        Channel.name) = ["test channel"] ∧
    (run (fun _ => some "#EXTINF:-1,test channel\nhttp://a/1")
        (fun _ => HeadOutcome.status 200) ["s1"] []).categorized =
      [("cctv", []), ("satellite", []), ("local", []), ("international", []),
       ("other", [])] := by
  decide

/-- **C5 (amended)**: after classification, every *validated* channel (the
channels that survive the quality filter and reachability validation) appears
in exactly one category bucket — membership in bucket `k` holds iff `k` is the
channel's category — and the per-category counts in the run statistics sum to
the validated-channel count (`stats.valid_channels`), not in general to the
deduplicated total `stats.total_channels`. -/
theorem claim5_amended_partition (fetch : String → Option String)
    (head_of : Channel → HeadOutcome) (sources backup_sources : List String) :
    (((run fetch head_of sources backup_sources).stats.categories.map
        Prod.snd).sum =
      (run fetch head_of sources backup_sources).stats.valid_channels) ∧
    ((run fetch head_of sources backup_sources).stats.valid_channels =
      (run fetch head_of sources backup_sources).valid_channels.length) ∧
    (∀ c ∈ (run fetch head_of sources backup_sources).valid_channels,
      ∀ k : String,
        c ∈ bucket (run fetch head_of sources backup_sources).categorized k ↔
          (k ∈ category_keys ∧ categorize_channel c.name = k)) := by
  obtain ⟨_, _, _, hcat, hsv, hsc, _⟩ :=
    run_fields fetch head_of sources backup_sources
  refine ⟨?_, hsv, ?_⟩
  · rw [hsc, hsv, hcat, List.map_map]
    exact sum_categories _
  · intro c hc k
    rw [hcat, mem_bucket_iff]
    constructor
    · rintro ⟨hk, _, hck⟩
      exact ⟨hk, hck⟩
    · rintro ⟨hk, hck⟩
      exact ⟨hk, hc, hck⟩

/-- Witness for C5 (amended) on a run with one kept channel: the sums agree
and the channel sits exactly in its own bucket. -/
theorem claim5_witness :
    ((run (fun _ => some "#EXTINF:-1,CCTV-1\nhttp://a/1")
        (fun _ => HeadOutcome.status 200) ["s1"] []).stats.categories.map
        Prod.snd).sum =
      (run (fun _ => some "#EXTINF:-1,CCTV-1\nhttp://a/1")
        (fun _ => HeadOutcome.status 200) ["s1"] []).stats.valid_channels ∧
    ((⟨"#EXTINF:-1,CCTV-1", "CCTV-1", "http://a/1", "s1"⟩ : Channel) ∈
      bucket (run (fun _ => some "#EXTINF:-1,CCTV-1\nhttp://a/1")
        (fun _ => HeadOutcome.status 200) ["s1"] []).categorized "cctv" ↔
      ("cctv" ∈ category_keys ∧ categorize_channel "CCTV-1" = "cctv")) :=
  ⟨(claim5_amended_partition (fun _ => some "#EXTINF:-1,CCTV-1\nhttp://a/1")
      (fun _ => HeadOutcome.status 200) ["s1"] []).1,
   (claim5_amended_partition (fun _ => some "#EXTINF:-1,CCTV-1\nhttp://a/1")
      (fun _ => HeadOutcome.status 200) ["s1"] []).2.2
      ⟨"#EXTINF:-1,CCTV-1", "CCTV-1", "http://a/1", "s1"⟩ (by decide) "cctv"⟩

/-! ## C7: probe fallback policy -/

/-- C7 counterexample: the prober actually invoked by the validation stage
(`is_url_accessible`, the class method) marks a well-formed, non-shortcut URL
unreachable as soon as the HEAD probe raises a connection error — it consults
no GET fallback at all (its only network input is the HEAD outcome) — whereas
under the superseded fallback prober the same situation with a GET answering
200 would count as reachable. -/
theorem claim7_no_get_fallback_counterexample :
    (is_url_accessible ⟨"#EXTINF:-1,N", "N", "http://a/1", "s"⟩
        HeadOutcome.connError).1 = false ∧
    is_url_accessible_v2 none (some 200) = true := by
  decide

/-- **C7 (amended)**: the HEAD-then-GET fallback exists only in the superseded
prober revision `is_url_accessible_v2`: there, when the HEAD probe raises, the
streaming-GET result alone decides (reachable iff it answers 200), and when
the HEAD probe answers, the GET outcome is never consulted.  The prober the
pipeline actually runs (`is_url_accessible`) issues a single HEAD probe: for a
well-formed, non-shortcut URL, every HEAD outcome other than status 200/302/301
is immediately unreachable, with no GET retry. -/
theorem claim7_amended_probe_policy :
    (∀ get : Option Nat, is_url_accessible_v2 none get = true ↔ get = some 200) ∧
    (∀ (code : Nat) (get get' : Option Nat),
      is_url_accessible_v2 (some code) get =
        is_url_accessible_v2 (some code) get') ∧
    (∀ (code : Nat) (get : Option Nat),
      is_url_accessible_v2 (some code) get = true ↔
        (code = 200 ∨ code = 302 ∨ code = 301)) ∧
    (∀ (c : Channel) (h : HeadOutcome),
      hasSchemeAndNetloc c.url = true →
      pyContains c.url "youtube.com" = false →
      pyContains c.url "youtu.be" = false →
      pyContains c.url "twitch.tv" = false →
      h ≠ HeadOutcome.status 200 → h ≠ HeadOutcome.status 302 →
      h ≠ HeadOutcome.status 301 →
      (is_url_accessible c h).1 = false) := by
  refine ⟨?_, ?_, ?_, ?_⟩
  · intro get
    cases get <;> simp [is_url_accessible_v2]
  · intro code get get'
    rfl
  · intro code get
    simp only [is_url_accessible_v2, Bool.or_eq_true, decide_eq_true_eq]
    tauto
  · intro c h hok hy1 hy2 ht h200 h302 h301
    unfold is_url_accessible
    simp only [hok, hy1, hy2, ht, Bool.not_true, Bool.false_eq_true, if_false,
      Bool.or_self, Bool.or_false, Bool.false_or]
    cases h with
    | status code =>
      have hc200 : code ≠ 200 := fun hc => h200 (by rw [hc])
      have hc302 : code ≠ 302 := fun hc => h302 (by rw [hc])
      have hc301 : code ≠ 301 := fun hc => h301 (by rw [hc])
      simp [hc200, hc302, hc301]
    | timeout => rfl
    | connError => rfl
    | reqError => rfl
    | otherError => rfl

/-- Witness for C7 (amended): concrete evaluations of both probers. -/
theorem claim7_witness :
    is_url_accessible_v2 none (some 404) = false ∧
    (is_url_accessible ⟨"#EXTINF:-1,N", "N", "http://a/1", "s"⟩
        HeadOutcome.timeout).1 = false :=
  ⟨by
      cases hb : is_url_accessible_v2 none (some 404) with
      | false => rfl
      | true =>
        exact absurd ((claim7_amended_probe_policy.1 (some 404)).mp hb)
          (by decide),
   claim7_amended_probe_policy.2.2.2 ⟨"#EXTINF:-1,N", "N", "http://a/1", "s"⟩
     HeadOutcome.timeout (by decide) (by decide) (by decide) (by decide)
     (by decide) (by decide) (by decide)⟩

/-! ## C1: total source exhaustion -/

/-- **C1** (code bug): with every primary and backup fetch failing, the
executed `run` does not halt — it writes `outputs/full_raw.m3u`,
`outputs/full_validated.m3u` and the rest of its output files around an empty
channel list, with `sources_successful = 0` in the statistics — while the
superseded `run` revision in the same file (lines 679-681) takes the explicit
no-data early return and writes nothing, as the spec describes. -/
theorem claim1_total_failure_behavior :
    (run (fun _ => none) (fun _ => HeadOutcome.status 200)
        ["s1", "s2"] ["b1"]).files =
      ["outputs/full_raw.m3u", "logs/validation_details.json",
       "outputs/full_validated.m3u", "logs/latest_update.log",
       "outputs/stats.json", "README.md"] ∧
    (run (fun _ => none) (fun _ => HeadOutcome.status 200)
        ["s1", "s2"] ["b1"]).stats.sources_successful = 0 ∧
    (run (fun _ => none) (fun _ => HeadOutcome.status 200)
        ["s1", "s2"] ["b1"]).stats.total_channels = 0 ∧
    (run_v2 (fun _ => none) (fun _ => none) (fun _ => none)
        ["s1", "s2"] ["b1"]).halted_no_data = true ∧
    (run_v2 (fun _ => none) (fun _ => none) (fun _ => none)
        ["s1", "s2"] ["b1"]).files = [] ∧
    (run_v2 (fun _ => none) (fun _ => none) (fun _ => none)
        ["s1", "s2"] ["b1"]).stats = none := by
  decide

/-! ## Decimal representation: `toString` on `Nat` is injective and
newline-free (needed for fallback-name uniqueness and header splitting) -/

/-- `Nat.toDigitsCore` prepends its digits to the accumulator. -/
theorem toDigitsCore_append (fuel : Nat) :
    ∀ (n : Nat) (ds : List Char),
      Nat.toDigitsCore 10 fuel n ds = Nat.toDigitsCore 10 fuel n [] ++ ds := by
  induction fuel with
  | zero => intro n ds; simp [Nat.toDigitsCore]
  | succ fuel ih =>
    intro n ds
    simp only [Nat.toDigitsCore]
    split
    · rfl
    · rw [ih (n / 10) (Nat.digitChar (n % 10) :: ds),
        ih (n / 10) [Nat.digitChar (n % 10)], List.append_assoc]
      rfl

/-- With adequate fuel, the fuel amount does not matter. -/
theorem toDigitsCore_fuel (n : Nat) :
    ∀ (f₁ f₂ : Nat) (ds : List Char), n < f₁ → n < f₂ →
      Nat.toDigitsCore 10 f₁ n ds = Nat.toDigitsCore 10 f₂ n ds := by
  induction n using Nat.strong_induction_on with
  | _ n ih =>
    intro f₁ f₂ ds h₁ h₂
    cases f₁ with
    | zero => omega
    | succ a =>
      cases f₂ with
      | zero => omega
      | succ b =>
        simp only [Nat.toDigitsCore]
        split
        · rfl
        · rename_i hne
          have h10 : 10 ≤ n := by
            by_contra hlt
            exact hne (Nat.div_eq_of_lt (by omega))
          have hd : n / 10 < n := Nat.div_lt_self (by omega) (by omega)
          exact ih (n / 10) hd a b _ (by omega) (by omega)

/-- Reading the decimal digits back, digit by digit. -/
theorem decodeDecimal_append (l : List Char) (c : Char) :
    decodeDecimal (l ++ [c]) = 10 * decodeDecimal l + digitVal c := by
  simp [decodeDecimal, List.foldl_append]

/-- `digitVal` inverts `Nat.digitChar` on decimal digits. -/
theorem digitVal_digitChar (m : Nat) (h : m < 10) :
    digitVal (Nat.digitChar m) = m := by
  interval_cases m <;> decide

/-- `decodeDecimal` is a left inverse of `Nat.toDigits 10`. -/
theorem decodeDecimal_toDigits :
    ∀ n : Nat, decodeDecimal (Nat.toDigits 10 n) = n := by
  intro n
  induction n using Nat.strong_induction_on with
  | _ n ih =>
    unfold Nat.toDigits
    simp only [Nat.toDigitsCore]
    split
    · rename_i h0
      have hn : n < 10 := by
        by_contra h
        have : 1 ≤ n / 10 := (Nat.one_le_div_iff (by omega)).2 (by omega)
        omega
      have : n % 10 = n := Nat.mod_eq_of_lt hn
      rw [this]
      simp [decodeDecimal, digitVal_digitChar n hn]
    · rename_i h0
      have h10 : 10 ≤ n := by
        by_contra hlt
        exact h0 (Nat.div_eq_of_lt (by omega))
      have hd : n / 10 < n := Nat.div_lt_self (by omega) (by omega)
      rw [toDigitsCore_append,
        toDigitsCore_fuel (n / 10) n (n / 10 + 1) [] (by omega) (by omega)]
      have hrepr : Nat.toDigitsCore 10 (n / 10 + 1) (n / 10) [] =
          Nat.toDigits 10 (n / 10) := rfl
      rw [hrepr, decodeDecimal_append, ih (n / 10) hd,
        digitVal_digitChar _ (Nat.mod_lt _ (by omega))]
      omega

/-- Decimal rendering of naturals is injective. -/
theorem natToString_inj (m n : Nat) (h : (toString m : String) = toString n) :
    m = n := by
  have hd : Nat.toDigits 10 m = Nat.toDigits 10 n := congrArg String.data h
  have hdec := congrArg decodeDecimal hd
  rwa [decodeDecimal_toDigits, decodeDecimal_toDigits] at hdec

/-- Every character `toDigitsCore` adds is a (hex) digit character for a
value below 10, i.e. a decimal digit. -/
theorem toDigitsCore_chars (fuel : Nat) :
    ∀ (n : Nat) (ds : List Char), ∀ c ∈ Nat.toDigitsCore 10 fuel n ds,
      c ∈ ds ∨ c.isDigit = true := by
  induction fuel with
  | zero => intro n ds c hc; exact Or.inl hc
  | succ fuel ih =>
    intro n ds c hc
    have hdig : (Nat.digitChar (n % 10)).isDigit = true := by
      have h : n % 10 < 10 := Nat.mod_lt _ (by omega)
      interval_cases hm : n % 10 <;> decide
    simp only [Nat.toDigitsCore] at hc
    split at hc
    · rcases List.mem_cons.1 hc with rfl | hmem
      · exact Or.inr hdig
      · exact Or.inl hmem
    · rcases ih (n / 10) (Nat.digitChar (n % 10) :: ds) c hc with hmem | hdig'
      · rcases List.mem_cons.1 hmem with rfl | hmem'
        · exact Or.inr hdig
        · exact Or.inl hmem'
      · exact Or.inr hdig'

/-- Decimal renderings contain no newline. -/
theorem natToString_no_nl (n : Nat) : '\n' ∉ (toString n : String).data := by
  intro hmem
  have hmem' : '\n' ∈ Nat.toDigitsCore 10 (n + 1) n [] := hmem
  rcases toDigitsCore_chars (n + 1) n [] '\n' hmem' with h | h
  · simp at h
  · exact absurd h (by decide)

/-! ## Instrumented live parser (C4) -/

/-- `parse_m3u_go` is the tag-erasure of its instrumented copy. -/
theorem parse_m3u_go_idx_snd (source_url : String) :
    ∀ (xs : List (Nat × String)) (cur : Option (Nat × LivePending)),
      (parse_m3u_go_idx source_url xs cur).map Prod.snd =
        parse_m3u_go source_url xs (cur.map Prod.snd) := by
  intro xs
  induction xs with
  | nil => intro cur; rfl
  | cons x rest ih =>
    intro cur
    obtain ⟨i, l⟩ := x
    simp only [parse_m3u_go_idx, parse_m3u_go]
    split
    · exact ih cur
    split
    · exact ih (some (i, ⟨pyStrip l, _⟩))
    split
    · cases cur with
      | none => exact ih none
      | some jp =>
        obtain ⟨j, p⟩ := jp
        simp only [Option.map_some', List.map_cons, ih none]
        rfl
    · exact ih cur

/-- Indices in `enumFrom n` are at least `n`. -/
theorem mem_enumFrom_le {α : Type} :
    ∀ (l : List α) (n : Nat), ∀ q ∈ List.enumFrom n l, n ≤ q.1 := by
  intro l
  induction l with
  | nil => intro n q hq; simp at hq
  | cons a rest ih =>
    intro n q hq
    rcases List.mem_cons.1 hq with rfl | hmem
    · exact Nat.le_refl n
    · have := ih (n + 1) q hmem
      omega

/-- Indices in `enumFrom n` are strictly increasing. -/
theorem enumFrom_pairwise {α : Type} :
    ∀ (l : List α) (n : Nat),
      List.Pairwise (fun a b => a.1 < b.1) (List.enumFrom n l) := by
  intro l
  induction l with
  | nil => intro n; simp
  | cons a rest ih =>
    intro n
    refine List.Pairwise.cons (fun q hq => ?_) (ih (n + 1))
    have := mem_enumFrom_le rest (n + 1) q hq
    omega

/-- Every tag in the instrumented parse output comes from the pending entry or
from one of the input lines. -/
theorem parse_idx_tags (source_url : String) :
    ∀ (xs : List (Nat × String)) (cur : Option (Nat × LivePending)),
      ∀ q ∈ parse_m3u_go_idx source_url xs cur,
        (∃ p, cur = some (q.1, p)) ∨ (∃ r ∈ xs, q.1 = r.1) := by
  intro xs
  induction xs with
  | nil => intro cur q hq; simp [parse_m3u_go_idx] at hq
  | cons x rest ih =>
    intro cur q hq
    obtain ⟨i, l⟩ := x
    simp only [parse_m3u_go_idx] at hq
    split at hq
    · rcases ih cur q hq with h | ⟨r, hr, he⟩
      · exact Or.inl h
      · exact Or.inr ⟨r, List.mem_cons_of_mem _ hr, he⟩
    · split at hq
      · rcases ih _ q hq with ⟨p, hp⟩ | ⟨r, hr, he⟩
        · injection hp with hp'
          injection hp' with h1 h2
          exact Or.inr ⟨(i, l), List.mem_cons_self _ _, h1.symm⟩
        · exact Or.inr ⟨r, List.mem_cons_of_mem _ hr, he⟩
      · split at hq
        · cases cur with
          | none =>
            rcases ih none q hq with ⟨p, hp⟩ | ⟨r, hr, he⟩
            · exact absurd hp (by simp)
            · exact Or.inr ⟨r, List.mem_cons_of_mem _ hr, he⟩
          | some jp =>
            obtain ⟨j, p⟩ := jp
            rcases List.mem_cons.1 hq with rfl | hmem
            · exact Or.inl ⟨p, rfl⟩
            · rcases ih none q hmem with ⟨p', hp'⟩ | ⟨r, hr, he⟩
              · exact absurd hp' (by simp)
              · exact Or.inr ⟨r, List.mem_cons_of_mem _ hr, he⟩
        · rcases ih cur q hq with h | ⟨r, hr, he⟩
          · exact Or.inl h
          · exact Or.inr ⟨r, List.mem_cons_of_mem _ hr, he⟩

/-- With strictly increasing line indices and a pending entry older than all
of them, the instrumented parse output has strictly increasing tags. -/
theorem parse_idx_pairwise (source_url : String) :
    ∀ (xs : List (Nat × String)) (cur : Option (Nat × LivePending)),
      List.Pairwise (fun a b => a.1 < b.1) xs →
      (∀ j p, cur = some (j, p) → ∀ r ∈ xs, j < r.1) →
      List.Pairwise (fun a b => a.1 < b.1)
        (parse_m3u_go_idx source_url xs cur) := by
  intro xs
  induction xs with
  | nil => intro cur _ _; simp [parse_m3u_go_idx]
  | cons x rest ih =>
    intro cur hpw hcur
    obtain ⟨i, l⟩ := x
    have hi : ∀ r ∈ rest, i < r.1 := fun r hr =>
      (List.pairwise_cons.1 hpw).1 r hr
    have hrest := (List.pairwise_cons.1 hpw).2
    simp only [parse_m3u_go_idx]
    split
    · exact ih cur hrest
        (fun j p hc r hr => hcur j p hc r (List.mem_cons_of_mem _ hr))
    · split
      · refine ih _ hrest (fun j p hc r hr => ?_)
        injection hc with hc'
        injection hc' with h1 _
        rw [← h1]
        exact hi r hr
      · split
        · cases cur with
          | none => exact ih none hrest (by simp)
          | some jp =>
            obtain ⟨j, p⟩ := jp
            refine List.Pairwise.cons (fun q hq => ?_) (ih none hrest (by simp))
            rcases parse_idx_tags source_url rest none q hq with ⟨p', hp'⟩ | ⟨r, hr, he⟩
            · exact absurd hp' (by simp)
            · rw [he]
              exact hcur j p rfl r (List.mem_cons_of_mem _ hr)
        · exact ih cur hrest
            (fun j p hc r hr => hcur j p hc r (List.mem_cons_of_mem _ hr))

/-- In the instrumented parse output, every channel's name is the canonical
name derived from its metadata line and its tag. -/
theorem parse_idx_names (source_url : String) :
    ∀ (xs : List (Nat × String)) (cur : Option (Nat × LivePending)),
      (∀ j p, cur = some (j, p) → p.name = nameFromRaw p.raw_extinf j) →
      ∀ q ∈ parse_m3u_go_idx source_url xs cur,
        q.2.name = nameFromRaw q.2.raw_extinf q.1 := by
  intro xs
  induction xs with
  | nil => intro cur _ q hq; simp [parse_m3u_go_idx] at hq
  | cons x rest ih =>
    intro cur hcur q hq
    obtain ⟨i, l⟩ := x
    simp only [parse_m3u_go_idx] at hq
    split at hq
    · exact ih cur hcur q hq
    · split at hq
      · refine ih _ ?_ q hq
        intro j p hc
        injection hc with hc'
        injection hc' with h1 h2
        rw [← h2, ← h1]
        rfl
      · split at hq
        · cases cur with
          | none => exact ih none (by simp) q hq
          | some jp =>
            obtain ⟨j, p⟩ := jp
            rcases List.mem_cons.1 hq with rfl | hmem
            · exact hcur j p rfl
            · exact ih none (by simp) q hmem
        · exact ih cur hcur q hq

/-! ## C4: parser names -/

/-- C4 counterexample: a metadata line with a trailing comma and no
display-name text parses to an entry whose `name` is the empty string — no
fallback name is synthesized, because the fallback fires only when the line
has no comma at all. -/
theorem claim4_empty_name_counterexample :
    (parse_m3u "#EXTINF:-1,\nhttp://a/1" "s").map Channel.name = [""] ∧
    (parse_m3u "#EXTINF:-1,\nhttp://a/1" "s").map Channel.raw_extinf =
      ["#EXTINF:-1,"] := by
  decide

/-- **C4 (amended)**: every parsed entry's name is determined by its metadata
line: when the line contains a comma, the name is the whitespace-stripped text
after the first comma — possibly empty; when it contains no comma, a non-empty
fallback name `Unknown_<line index>` is synthesized, and the fallback names of
distinct entries within one source are distinct (the parser assigns strictly
increasing line indices and decimal rendering is injective). -/
theorem claim4_amended_names (content source_url : String) :
    (∀ e ∈ parse_m3u content source_url,
      (∀ t, afterComma e.raw_extinf = some t → e.name = pyStrip t) ∧
      (afterComma e.raw_extinf = none →
        (∃ i : Nat, e.name = "Unknown_" ++ toString i) ∧ e.name ≠ "")) ∧
    List.Pairwise (fun a b =>
      afterComma a.raw_extinf = none → afterComma b.raw_extinf = none →
      a.name ≠ b.name) (parse_m3u content source_url) := by
  have hparse : parse_m3u content source_url =
      (parse_m3u_go_idx source_url (pySplitlines content).enum none).map
        Prod.snd := by
    rw [parse_m3u_go_idx_snd]
    rfl
  have hnames := parse_idx_names source_url (pySplitlines content).enum none
    (by simp)
  constructor
  · intro e he
    rw [hparse] at he
    rcases List.mem_map.1 he with ⟨q, hq, rfl⟩
    have hn := hnames q hq
    constructor
    · intro t ht
      rw [hn]
      unfold nameFromRaw
      rw [ht]
    · intro hnone
      rw [hn]
      unfold nameFromRaw
      rw [hnone]
      refine ⟨⟨q.1, rfl⟩, ?_⟩
      intro hempty
      have hdata := congrArg String.data hempty
      rw [String.ext_iff] at hempty
      simp at hempty
  · rw [hparse, List.pairwise_map]
    have hpw := parse_idx_pairwise source_url (pySplitlines content).enum none
      (enumFrom_pairwise _ 0) (by simp)
    refine hpw.imp_of_mem ?_
    intro a b ha hb hab hca hcb heq
    have hna := hnames a ha
    have hnb := hnames b hb
    rw [hna, hnb] at heq
    unfold nameFromRaw at heq
    rw [hca] at heq
    rw [hcb] at heq
    have hdata := congrArg String.data heq
    have htail : (toString a.1 : String).data = (toString b.1 : String).data :=
      List.append_cancel_left hdata
    have := natToString_inj a.1 b.1 (String.ext htail)
    omega

/-- Witness for C4 (amended) at a concrete source: the comma case yields the
stripped display name. -/
theorem claim4_witness :
    (⟨"#EXTINF:-1,Name", "Name", "http://a/1", "s"⟩ : Channel).name =
      pyStrip "Name" :=
  ((claim4_amended_names "#EXTINF:-1,Name\nhttp://a/1" "s").1
    ⟨"#EXTINF:-1,Name", "Name", "http://a/1", "s"⟩ (by decide)).1
    "Name" (by decide)

/-! ## String-stripping lemmas -/

/-- `stripEndChars` is Mathlib's `rdropWhile`. -/
theorem stripEndChars_eq_rdropWhile (l : List Char) :
    stripEndChars l = l.rdropWhile isPySpace := rfl

/-- The head of a `dropWhile` result fails the predicate. -/
theorem dropWhile_head_false {α : Type} (p : α → Bool) (l : List α) (c : α)
    (t : List α) (h : l.dropWhile p = c :: t) : p c = false := by
  induction l with
  | nil => simp at h
  | cons a l ih =>
    rw [List.dropWhile_cons] at h
    split at h
    · exact ih h
    · rename_i hp
      injection h with h1 _
      subst h1
      simpa using hp

/-- Python `strip` is idempotent (character-list level). -/
theorem pyStripChars_idem (l : List Char) :
    pyStripChars (pyStripChars l) = pyStripChars l := by
  unfold pyStripChars
  simp only [stripEndChars_eq_rdropWhile]
  have h1 : ((l.dropWhile isPySpace).rdropWhile isPySpace).dropWhile isPySpace
      = (l.dropWhile isPySpace).rdropWhile isPySpace := by
    cases h : (l.dropWhile isPySpace).rdropWhile isPySpace with
    | nil => rfl
    | cons c t =>
      have hpre := List.rdropWhile_prefix isPySpace (l.dropWhile isPySpace)
      rw [h] at hpre
      obtain ⟨s, hs⟩ := hpre
      have hc : isPySpace c = false := by
        apply dropWhile_head_false isPySpace l c (t ++ s)
        rw [← hs]
        rfl
      rw [List.dropWhile_cons, hc]
      simp
  rw [h1, List.rdropWhile_idempotent]

/-- Python `strip` is idempotent. -/
theorem pyStrip_idem (s : String) : pyStrip (pyStrip s) = pyStrip s :=
  String.ext (pyStripChars_idem s.data)

/-- Stripping only removes characters. -/
theorem mem_pyStripChars (l : List Char) : ∀ c ∈ pyStripChars l, c ∈ l := by
  intro c hc
  unfold pyStripChars at hc
  rw [stripEndChars_eq_rdropWhile] at hc
  have h1 := (List.rdropWhile_prefix isPySpace (l.dropWhile isPySpace)).subset hc
  exact (List.dropWhile_suffix isPySpace).subset h1

/-- Consing a character onto a list whose strip-end survives: the new head is
kept, as long as it is non-whitespace or something non-whitespace follows. -/
theorem stripEndChars_cons (c : Char) (l : List Char)
    (h : isPySpace c = false ∨ ∃ d ∈ l, isPySpace d = false) :
    stripEndChars (c :: l) = c :: stripEndChars l := by
  unfold stripEndChars
  rw [List.reverse_cons, List.dropWhile_append]
  split
  · rename_i hemp
    have h2 : l.reverse.dropWhile isPySpace = [] := by
      cases hdw : l.reverse.dropWhile isPySpace with
      | nil => rfl
      | cons a t => rw [hdw] at hemp; simp at hemp
    have hall : ∀ d ∈ l, isPySpace d = true := by
      intro d hd
      exact List.dropWhile_eq_nil_iff.1 h2 d (List.mem_reverse.2 hd)
    have hc : isPySpace c = false := by
      rcases h with hc | ⟨d, hd, hdf⟩
      · exact hc
      · rw [hall d hd] at hdf
        cases hdf
    rw [h2]
    simp [List.dropWhile_cons, hc]
  · simp

/-- Stripping a line that opens with `"# "` and contains later non-whitespace
keeps the two leading characters. -/
theorem pyStripChars_hash_space (x : List Char)
    (hx : ∃ d ∈ x, isPySpace d = false) :
    pyStripChars ('#' :: ' ' :: x) = '#' :: ' ' :: stripEndChars x := by
  unfold pyStripChars
  rw [List.dropWhile_cons]
  have h1 : isPySpace '#' = false := by decide
  rw [h1]
  simp only [Bool.false_eq_true, if_false]
  rw [stripEndChars_cons '#' (' ' :: x) (Or.inl h1),
    stripEndChars_cons ' ' x (Or.inr hx)]

/-- A stripped `"# ..."` line is inert for the VOD parser: it is neither an
`#EXTINF` line nor a stream URI line. -/
theorem hash_space_line_inert (s : String) (x : List Char)
    (hs : s.data = '#' :: ' ' :: x) (hx : ∃ d ∈ x, isPySpace d = false) :
    pyStartsWith (pyStrip s) "#EXTINF" = false ∧
    isStreamUrl (pyStrip s) = false := by
  have hdata : (pyStrip s).data = '#' :: ' ' :: stripEndChars x := by
    show pyStripChars s.data = _
    rw [hs]
    exact pyStripChars_hash_space x hx
  constructor
  · rw [Bool.eq_false_iff]
    intro htrue
    unfold pyStartsWith at htrue
    rw [List.isPrefixOf_iff_prefix, hdata] at htrue
    obtain ⟨t, ht⟩ := htrue
    rw [show ("#EXTINF".data) = ['#', 'E', 'X', 'T', 'I', 'N', 'F'] from rfl,
      List.cons_append, List.cons_append] at ht
    injection ht with _ ht2
    injection ht2 with h2 _
    exact absurd h2 (by decide)
  · rw [Bool.eq_false_iff]
    intro htrue
    unfold isStreamUrl pyStartsWith at htrue
    rw [Bool.or_eq_true, Bool.or_eq_true, Bool.or_eq_true] at htrue
    rcases htrue with ((h | h) | h) | h <;>
    · rw [List.isPrefixOf_iff_prefix, hdata] at h
      obtain ⟨t, ht⟩ := h
      rw [List.cons_append] at ht
      injection ht with h1 _
      exact absurd h1 (by decide)

/-- A stream URI line is neither empty nor an `#EXTINF` line. -/
theorem stream_facts (u : String) (hu : isStreamUrl u = true) :
    pyStartsWith u "#EXTINF" = false ∧ ¬u = "" := by
  have hhead : ∃ t, u.data = 'h' :: t ∨ u.data = 'r' :: t := by
    unfold isStreamUrl pyStartsWith at hu
    rw [Bool.or_eq_true, Bool.or_eq_true, Bool.or_eq_true] at hu
    rcases hu with ((h | h) | h) | h
    · rw [List.isPrefixOf_iff_prefix] at h
      obtain ⟨t, ht⟩ := h
      exact ⟨"ttp://".data ++ t, Or.inl (by rw [← ht]; rfl)⟩
    · rw [List.isPrefixOf_iff_prefix] at h
      obtain ⟨t, ht⟩ := h
      exact ⟨"ttps://".data ++ t, Or.inl (by rw [← ht]; rfl)⟩
    · rw [List.isPrefixOf_iff_prefix] at h
      obtain ⟨t, ht⟩ := h
      exact ⟨"tsp://".data ++ t, Or.inr (by rw [← ht]; rfl)⟩
    · rw [List.isPrefixOf_iff_prefix] at h
      obtain ⟨t, ht⟩ := h
      exact ⟨"tmp://".data ++ t, Or.inr (by rw [← ht]; rfl)⟩
  obtain ⟨t, ht | ht⟩ := hhead <;>
    refine ⟨?_, ?_⟩ <;>
    first
    | · rw [Bool.eq_false_iff]
        intro htrue
        unfold pyStartsWith at htrue
        rw [List.isPrefixOf_iff_prefix] at htrue
        obtain ⟨s, hs⟩ := htrue
        rw [ht, show ("#EXTINF".data) = ['#', 'E', 'X', 'T', 'I', 'N', 'F']
          from rfl, List.cons_append] at hs
        injection hs with h1 _
        exact absurd h1 (by decide)
    | · intro he
        rw [he] at ht
        simp at ht

/-- An `#EXTINF` line is non-empty. -/
theorem extinf_nonempty (s : String) (h : pyStartsWith s "#EXTINF" = true) :
    ¬s = "" := by
  intro he
  rw [he] at h
  exact absurd h (by decide)

/-- Unpacked form of `VodItemWF`. -/
theorem vodItemWF_spec (e : VodItem) (h : VodItemWF e = true) :
    pyStrip e.raw_extinf = e.raw_extinf ∧
    pyStartsWith e.raw_extinf "#EXTINF" = true ∧
    '\n' ∉ e.raw_extinf.data ∧
    pyStrip e.url = e.url ∧
    isStreamUrl e.url = true ∧
    '\n' ∉ e.url.data ∧
    e.group = vodGroupFromRaw e.raw_extinf ∧
    e.logo = extractAttr "tvg-logo=\"" e.raw_extinf ∧
    vodNameConsistent e = true := by
  unfold VodItemWF at h
  simp only [Bool.and_eq_true, beq_iff_eq, Bool.not_eq_true',
    decide_eq_false_iff_not] at h
  tauto

/-- Introduction form of `VodItemWF`. -/
theorem vodItemWF_intro (e : VodItem)
    (h1 : pyStrip e.raw_extinf = e.raw_extinf)
    (h2 : pyStartsWith e.raw_extinf "#EXTINF" = true)
    (h3 : '\n' ∉ e.raw_extinf.data)
    (h4 : pyStrip e.url = e.url)
    (h5 : isStreamUrl e.url = true)
    (h6 : '\n' ∉ e.url.data)
    (h7 : e.group = vodGroupFromRaw e.raw_extinf)
    (h8 : e.logo = extractAttr "tvg-logo=\"" e.raw_extinf)
    (h9 : vodNameConsistent e = true) : VodItemWF e = true := by
  unfold VodItemWF
  simp only [Bool.and_eq_true, beq_iff_eq, Bool.not_eq_true',
    decide_eq_false_iff_not]
  tauto

/-- Unpacked form of `VodPendingWF`. -/
theorem vodPendingWF_spec (p : VodPending) (h : VodPendingWF p = true) :
    pyStrip p.raw_extinf = p.raw_extinf ∧
    pyStartsWith p.raw_extinf "#EXTINF" = true ∧
    '\n' ∉ p.raw_extinf.data ∧
    p.group = vodGroupFromRaw p.raw_extinf ∧
    p.logo = extractAttr "tvg-logo=\"" p.raw_extinf ∧
    (match afterComma p.raw_extinf with
     | some t => p.name == pyStrip t
     | none => true) = true := by
  unfold VodPendingWF at h
  simp only [Bool.and_eq_true, beq_iff_eq, Bool.not_eq_true',
    decide_eq_false_iff_not] at h
  tauto

/-- Introduction form of `VodPendingWF`. -/
theorem vodPendingWF_intro (p : VodPending)
    (h1 : pyStrip p.raw_extinf = p.raw_extinf)
    (h2 : pyStartsWith p.raw_extinf "#EXTINF" = true)
    (h3 : '\n' ∉ p.raw_extinf.data)
    (h4 : p.group = vodGroupFromRaw p.raw_extinf)
    (h5 : p.logo = extractAttr "tvg-logo=\"" p.raw_extinf)
    (h6 : (match afterComma p.raw_extinf with
           | some t => p.name == pyStrip t
           | none => true) = true) : VodPendingWF p = true := by
  unfold VodPendingWF
  simp only [Bool.and_eq_true, beq_iff_eq, Bool.not_eq_true',
    decide_eq_false_iff_not]
  tauto

/-! ## Line-splitting lemmas -/

/-- `splitOnNl` never returns the empty list of parts. -/
theorem splitOnNl_ne_nil (l : List Char) : splitOnNl l ≠ [] := by
  cases l with
  | nil => simp [splitOnNl]
  | cons c cs =>
    unfold splitOnNl
    cases h : splitOnNl cs with
    | nil => simp
    | cons p ps =>
      dsimp only
      split <;> simp

/-- No part of `splitOnNl` contains a newline. -/
theorem splitOnNl_no_nl (l : List Char) : ∀ p ∈ splitOnNl l, '\n' ∉ p := by
  induction l with
  | nil =>
    intro p hp
    simp [splitOnNl] at hp
    simp [hp]
  | cons c cs ih =>
    intro p hp
    unfold splitOnNl at hp
    cases h : splitOnNl cs with
    | nil => exact absurd h (splitOnNl_ne_nil cs)
    | cons q ps =>
      rw [h] at hp
      dsimp only at hp
      by_cases hc : c = '\n'
      · rw [if_pos hc] at hp
        rcases List.mem_cons.1 hp with rfl | hmem
        · simp
        · exact ih p (h ▸ hmem)
      · rw [if_neg hc] at hp
        rcases List.mem_cons.1 hp with rfl | hmem
        · intro hnl
          rcases List.mem_cons.1 hnl with rfl | hmem'
          · exact hc rfl
          · exact ih q (h ▸ List.mem_cons_self _ _) hmem'
        · exact ih p (h ▸ List.mem_cons_of_mem _ hmem)

/-- Splitting after a leading newline. -/
theorem splitOnNl_cons_nl (l : List Char) :
    splitOnNl ('\n' :: l) = [] :: splitOnNl l := by
  cases h : splitOnNl l with
  | nil => exact absurd h (splitOnNl_ne_nil l)
  | cons p ps =>
    conv_lhs => unfold splitOnNl
    rw [h]
    simp

/-- Splitting off a complete newline-free line. -/
theorem splitOnNl_append (a : List Char) (ha : '\n' ∉ a) :
    ∀ b, splitOnNl (a ++ '\n' :: b) = a :: splitOnNl b := by
  induction a with
  | nil => intro b; simpa using splitOnNl_cons_nl b
  | cons c a ih =>
    intro b
    have hc : c ≠ '\n' := fun h => ha (h ▸ List.mem_cons_self _ _)
    have ha' : '\n' ∉ a := fun h => ha (List.mem_cons_of_mem _ h)
    simp only [List.cons_append]
    conv_lhs => unfold splitOnNl
    rw [ih ha' b]
    dsimp only
    rw [if_neg hc]

/-- Splitting two adjacent newline-free pieces ending in a newline. -/
theorem splitOnNl_append₂ (a b : List Char) (ha : '\n' ∉ a) (hb : '\n' ∉ b) :
    ∀ rest, splitOnNl (a ++ (b ++ '\n' :: rest)) = (a ++ b) :: splitOnNl rest := by
  intro rest
  rw [← List.append_assoc]
  refine splitOnNl_append (a ++ b) ?_ rest
  intro h
  rcases List.mem_append.1 h with h | h
  · exact ha h
  · exact hb h

/-- Splitting the rendered entry block: one line per metadata line and one per
URL line, plus the final empty segment from the trailing newline. -/
theorem splitOnNl_entry_block (E : List VodItem)
    (hwf : ∀ e ∈ E, VodItemWF e = true) :
    splitOnNl ((E.map (fun e =>
        e.raw_extinf.data ++ '\n' :: (e.url.data ++ ['\n']))).flatten)
      = (E.map (fun e => [e.raw_extinf.data, e.url.data])).flatten ++ [[]] := by
  induction E with
  | nil => simp [splitOnNl]
  | cons e E ih =>
    have hwfe := vodItemWF_spec e (hwf e (List.mem_cons_self _ _))
    obtain ⟨_, _, hnl, _, _, hunl, _, _, _⟩ := hwfe
    simp only [List.map_cons, List.flatten_cons, List.append_assoc,
      List.cons_append, List.singleton_append]
    rw [splitOnNl_append e.raw_extinf.data hnl,
      splitOnNl_append e.url.data hunl]
    simp only [List.nil_append]
    rw [ih (fun x hx => hwf x (List.mem_cons_of_mem _ hx))]

/-! ## Rendering lemmas -/

/-- The renderer's fold appends one metadata line and one URL line per item. -/
theorem generate_foldl_data (items : List VodItem) :
    ∀ h : String,
      (items.foldl (fun content it =>
        content ++ it.raw_extinf ++ "\n" ++ it.url ++ "\n") h).data
      = h.data ++ (items.map (fun it =>
          it.raw_extinf.data ++ '\n' :: (it.url.data ++ ['\n']))).flatten := by
  induction items with
  | nil => intro h; simp
  | cons it items ih =>
    intro h
    rw [List.foldl_cons, ih]
    have hnl : ("\n" : String).data = ['\n'] := rfl
    simp [String.data_append, hnl, List.append_assoc]

/-- The lines of a rendered playlist: the seven header lines, the blank
header terminator, then alternating metadata and URL lines. -/
theorem render_lines (E : List VodItem) (genTime updTime : String)
    (hG : '\n' ∉ genTime.data) (hU : '\n' ∉ updTime.data)
    (hwf : ∀ e ∈ E, VodItemWF e = true) :
    pySplitlines (generate_m3u_content E none genTime updTime) =
      "#EXTM3U" :: "#EXTENC: UTF-8" :: ("# Generated: " ++ genTime) ::
      ("# Updated: " ++ updTime) :: "# Type: 点播" ::
      ("# Total Items: " ++ toString E.length) ::
      "# For personal testing and research purposes only." :: "" ::
      (E.map (fun e => [e.raw_extinf, e.url])).flatten := by
  have hdata : (generate_m3u_content E none genTime updTime).data =
      "#EXTM3U".data ++ '\n' :: ("#EXTENC: UTF-8".data ++ '\n' ::
      (("# Generated: ".data ++ genTime.data) ++ '\n' ::
      (("# Updated: ".data ++ updTime.data) ++ '\n' ::
      ("# Type: 点播".data ++ '\n' ::
      (("# Total Items: ".data ++ (toString E.length).data) ++ '\n' ::
      ("# For personal testing and research purposes only.".data ++ '\n' ::
        '\n' :: (E.map (fun e =>
          e.raw_extinf.data ++ '\n' :: (e.url.data ++ ['\n']))).flatten)))))) := by
    unfold generate_m3u_content
    rw [generate_foldl_data]
    simp only [String.data_append]
    simp [List.append_assoc]
  unfold pySplitlines
  simp only [pySplitlinesChars]
  rw [hdata]
  rw [splitOnNl_append "#EXTM3U".data (by decide),
    splitOnNl_append "#EXTENC: UTF-8".data (by decide),
    splitOnNl_append ("# Generated: ".data ++ genTime.data) (by
      intro hmem
      rcases List.mem_append.1 hmem with h | h
      · exact absurd h (by decide)
      · exact hG h),
    splitOnNl_append ("# Updated: ".data ++ updTime.data) (by
      intro hmem
      rcases List.mem_append.1 hmem with h | h
      · exact absurd h (by decide)
      · exact hU h),
    splitOnNl_append "# Type: 点播".data (by decide),
    splitOnNl_append ("# Total Items: ".data ++ (toString E.length).data) (by
      intro hmem
      rcases List.mem_append.1 hmem with h | h
      · exact absurd h (by decide)
      · exact natToString_no_nl E.length h),
    splitOnNl_append "# For personal testing and research purposes only.".data
      (by decide),
    splitOnNl_cons_nl, splitOnNl_entry_block E hwf]
  have hshape : ∀ (A : List (List Char)),
      "#EXTM3U".data :: "#EXTENC: UTF-8".data ::
      ("# Generated: ".data ++ genTime.data) ::
      ("# Updated: ".data ++ updTime.data) :: "# Type: 点播".data ::
      ("# Total Items: ".data ++ (toString E.length).data) ::
      "# For personal testing and research purposes only.".data :: [] ::
      (A ++ [[]]) =
      ("#EXTM3U".data :: "#EXTENC: UTF-8".data ::
      ("# Generated: ".data ++ genTime.data) ::
      ("# Updated: ".data ++ updTime.data) :: "# Type: 点播".data ::
      ("# Total Items: ".data ++ (toString E.length).data) ::
      "# For personal testing and research purposes only.".data :: [] ::
      A) ++ [[]] := by
    intro A
    simp
  rw [hshape, List.getLast?_concat]
  simp only [if_pos rfl, if_true, List.dropLast_concat, List.map_cons,
    List.map_flatten, List.map_map]
  rfl

/-! ## Parser well-formedness (C6, C8) -/

/-- Snd-projection of enumerated membership. -/
theorem mem_enumFrom_snd {α : Type} :
    ∀ (l : List α) (n : Nat), ∀ q ∈ List.enumFrom n l, q.2 ∈ l := by
  intro l
  induction l with
  | nil => intro n q hq; simp at hq
  | cons a rest ih =>
    intro n q hq
    rcases List.mem_cons.1 hq with rfl | hmem
    · exact List.mem_cons_self _ _
    · exact List.mem_cons_of_mem _ (ih (n + 1) q hmem)

/-- Every item emitted by the VOD parser loop is well-formed, provided the
input lines are single lines and the pending entry (if any) is well-formed. -/
theorem parse_m3u_vod_go_wf (source_url : String) :
    ∀ (xs : List (Nat × String)) (cur : Option VodPending),
      (∀ x ∈ xs, '\n' ∉ (x.2 : String).data) →
      (∀ p, cur = some p → VodPendingWF p = true) →
      ∀ e ∈ parse_m3u_vod_go source_url xs cur, VodItemWF e = true := by
  intro xs
  induction xs with
  | nil => intro cur _ _ e he; simp [parse_m3u_vod_go] at he
  | cons x rest ih =>
    intro cur hnl hcur e he
    obtain ⟨i, l⟩ := x
    have hnll : '\n' ∉ l.data := hnl (i, l) (List.mem_cons_self _ _)
    have hnlr : ∀ x ∈ rest, '\n' ∉ (x.2 : String).data :=
      fun x hx => hnl x (List.mem_cons_of_mem _ hx)
    simp only [parse_m3u_vod_go] at he
    split at he
    · exact ih cur hnlr hcur e he
    · split at he
      · rename_i hext
        refine ih _ hnlr ?_ e he
        intro p hp
        injection hp with hp'
        rw [← hp']
        apply vodPendingWF_intro
        · exact pyStrip_idem l
        · exact hext
        · intro hm
          exact hnll (mem_pyStripChars l.data '\n' hm)
        · rfl
        · rfl
        · cases hac : afterComma (pyStrip l) <;> simp [hac]
      · split at he
        · rename_i hstream
          cases cur with
          | none => exact ih none hnlr (by simp) e he
          | some p =>
            rcases List.mem_cons.1 he with rfl | hmem
            · obtain ⟨hps, hpx, hpn, hpg, hpl, hpm⟩ :=
                vodPendingWF_spec p (hcur p rfl)
              apply vodItemWF_intro
              · exact hps
              · exact hpx
              · exact hpn
              · exact pyStrip_idem l
              · exact hstream
              · intro hm
                exact hnll (mem_pyStripChars l.data '\n' hm)
              · exact hpg
              · exact hpl
              · exact hpm
            · exact ih none hnlr (by simp) e hmem
        · exact ih cur hnlr hcur e he

/-- Every item produced by the VOD parser is well-formed. -/
theorem parse_m3u_vod_wf (content source_url : String) :
    ∀ e ∈ parse_m3u_vod content source_url, VodItemWF e = true := by
  intro e he
  refine parse_m3u_vod_go_wf source_url _ none ?_ (by simp) e he
  intro x hx
  have hx2 : x.2 ∈ pySplitlines content :=
    mem_enumFrom_snd (pySplitlines content) 0 x hx
  unfold pySplitlines at hx2
  rcases List.mem_map.1 hx2 with ⟨p, hp, hpx⟩
  have hpmem : p ∈ splitOnNl content.data := by
    simp only [pySplitlinesChars] at hp
    split at hp
    · exact (List.dropLast_sublist _).subset hp
    · exact hp
  rw [← hpx]
  exact splitOnNl_no_nl content.data p hpmem

/-! ## Round-trip machinery (C6) -/

/-- A line that strips to empty, or is neither an `#EXTINF` line nor a stream
URI line, leaves the VOD parser state unchanged. -/
theorem go_skip_line (source_url : String) (i : Nat) (l : String)
    (rest : List (Nat × String)) (cur : Option VodPending)
    (h : pyStrip l = "" ∨ (pyStartsWith (pyStrip l) "#EXTINF" = false ∧
      isStreamUrl (pyStrip l) = false)) :
    parse_m3u_vod_go source_url ((i, l) :: rest) cur =
      parse_m3u_vod_go source_url rest cur := by
  rcases h with h | ⟨h1, h2⟩
  · simp only [parse_m3u_vod_go, h, if_pos rfl, if_true]
  · by_cases hb : pyStrip l = ""
    · simp only [parse_m3u_vod_go, hb, if_pos rfl, if_true]
    · simp only [parse_m3u_vod_go, if_neg hb, h1, h2, Bool.false_eq_true,
        if_false]

/-- `enumFrom` distributes over append. -/
theorem enumFrom_append {α : Type} (l₁ l₂ : List α) :
    ∀ n, List.enumFrom n (l₁ ++ l₂) =
      List.enumFrom n l₁ ++ List.enumFrom (n + l₁.length) l₂ := by
  induction l₁ with
  | nil => intro n; simp
  | cons a l₁ ih =>
    intro n
    simp only [List.cons_append, List.enumFrom_cons, ih (n + 1),
      List.length_cons]
    have h : n + 1 + l₁.length = n + (l₁.length + 1) := by omega
    rw [h]

/-- Re-parsing the rendered entry lines reproduces the entries: the metadata
line, URL, group and logo verbatim, and the name whenever the metadata line
carries an explicit display-name segment. -/
theorem parse_vod_go_entries (source_url : String) :
    ∀ (E : List VodItem), (∀ e ∈ E, VodItemWF e = true) → ∀ (k : Nat),
      List.Forall₂ (fun p e =>
          p.raw_extinf = e.raw_extinf ∧ p.url = e.url ∧ p.group = e.group ∧
          p.logo = e.logo ∧
          (∀ t, afterComma e.raw_extinf = some t → p.name = e.name))
        (parse_m3u_vod_go source_url
          (List.enumFrom k ((E.map (fun e => [e.raw_extinf, e.url])).flatten))
          none) E := by
  intro E
  induction E with
  | nil => intro _ k; exact List.Forall₂.nil
  | cons e E ih =>
    intro hwf k
    obtain ⟨hstrip, hext, _, hustrip, hurl, _, hgroup, hlogo, hname⟩ :=
      vodItemWF_spec e (hwf e (List.mem_cons_self _ _))
    simp only [List.map_cons, List.flatten_cons, List.cons_append,
      List.nil_append, List.enumFrom_cons]
    simp only [parse_m3u_vod_go]
    rw [hstrip, if_neg (extinf_nonempty _ hext), if_pos hext, hustrip,
      if_neg (stream_facts _ hurl).2]
    have hsne : ¬(pyStartsWith e.url "#EXTINF" = true) := by
      rw [(stream_facts _ hurl).1]
      simp
    rw [if_neg hsne, if_pos hurl]
    refine List.Forall₂.cons ⟨rfl, rfl, ?_, ?_, ?_⟩ (ih (fun x hx =>
      hwf x (List.mem_cons_of_mem _ hx)) (k + 1 + 1))
    · rw [hgroup]
      rfl
    · rw [hlogo]
    · intro t ht
      unfold vodNameConsistent at hname
      rw [ht] at hname
      have he : e.name = pyStrip t := beq_iff_eq.1 hname
      rw [he, ht]

/-! ## C6: render/parse round trip -/

/-- C6 counterexample: an entry whose metadata line has no display-name
segment gets the fallback name `VOD_Unknown_0` (line index 0 in its source);
after rendering, its metadata line sits at line index 8 (below the header), so
re-parsing synthesizes the different name `VOD_Unknown_8` — the round trip
does not preserve fallback names. -/
theorem claim6_roundtrip_name_counterexample :
    (parse_m3u_vod "#EXTINF:-1\nhttp://a/1" "s").map VodItem.name =
      ["VOD_Unknown_0"] ∧
    (parse_m3u_vod (generate_m3u_content
        (parse_m3u_vod "#EXTINF:-1\nhttp://a/1" "s") none "T" "U") "s").map
      VodItem.name = ["VOD_Unknown_8"] ∧
    (parse_m3u_vod (generate_m3u_content
        (parse_m3u_vod "#EXTINF:-1\nhttp://a/1" "s") none "T" "U") "s").map
      VodItem.name ≠
      (parse_m3u_vod "#EXTINF:-1\nhttp://a/1" "s").map VodItem.name := by
  refine ⟨by decide, by decide, ?_⟩
  intro h
  rw [show (parse_m3u_vod "#EXTINF:-1\nhttp://a/1" "s").map VodItem.name =
      ["VOD_Unknown_0"] from by decide] at h
  rw [show (parse_m3u_vod (generate_m3u_content
      (parse_m3u_vod "#EXTINF:-1\nhttp://a/1" "s") none "T" "U") "s").map
      VodItem.name = ["VOD_Unknown_8"] from by decide] at h
  exact absurd h (by decide)

/-- **C6 (amended)**: every entry list produced by the VOD parser is
well-formed, and rendering a well-formed entry list with the VOD renderer
(over any newline-free timestamps) and re-parsing yields an entry list of the
same length in the same order with, per entry, the same metadata line, `url`,
`group` and `logo`; the `name` also agrees for every entry whose metadata line
contains a comma (an explicit display-name segment).  Entries with
synthesized fallback names may re-parse to a different fallback name, because
the fallback embeds the line index, which the rendered header shifts. -/
theorem claim6_amended_roundtrip :
    (∀ content source_url, ∀ e ∈ parse_m3u_vod content source_url,
      VodItemWF e = true) ∧
    (∀ (E : List VodItem) (genTime updTime source_url : String),
      (∀ e ∈ E, VodItemWF e = true) →
      '\n' ∉ genTime.data → '\n' ∉ updTime.data →
      List.Forall₂ (fun p e =>
          p.raw_extinf = e.raw_extinf ∧ p.url = e.url ∧ p.group = e.group ∧
          p.logo = e.logo ∧
          (∀ t, afterComma e.raw_extinf = some t → p.name = e.name))
        (parse_m3u_vod (generate_m3u_content E none genTime updTime)
          source_url) E) := by
  refine ⟨parse_m3u_vod_wf, ?_⟩
  intro E genTime updTime source_url hwf hG hU
  unfold parse_m3u_vod
  rw [render_lines E genTime updTime hG hU hwf]
  unfold List.enum
  simp only [List.enumFrom_cons]
  rw [go_skip_line source_url 0 "#EXTM3U" _ none (Or.inr (by decide)),
    go_skip_line source_url 1 "#EXTENC: UTF-8" _ none (Or.inr (by decide)),
    go_skip_line source_url 2 ("# Generated: " ++ genTime) _ none
      (Or.inr (hash_space_line_inert _
        ("Generated: ".data ++ genTime.data) (by
          simp only [String.data_append]
          simp) ⟨'G', by simp, by decide⟩)),
    go_skip_line source_url 3 ("# Updated: " ++ updTime) _ none
      (Or.inr (hash_space_line_inert _
        ("Updated: ".data ++ updTime.data) (by
          simp only [String.data_append]
          simp) ⟨'U', by simp, by decide⟩)),
    go_skip_line source_url 4 "# Type: 点播" _ none (Or.inr (by decide)),
    go_skip_line source_url 5 ("# Total Items: " ++ toString E.length) _ none
      (Or.inr (hash_space_line_inert _
        ("Total Items: ".data ++ (toString E.length).data) (by
          simp only [String.data_append]
          simp) ⟨'T', by simp, by decide⟩)),
    go_skip_line source_url 6
      "# For personal testing and research purposes only." _ none
      (Or.inr (by decide)),
    go_skip_line source_url 7 "" _ none (Or.inl (by decide))]
  exact parse_vod_go_entries source_url E hwf 8

/-- Witness for C6 (amended): round trip of a concrete parsed list. -/
theorem claim6_witness :
    List.Forall₂ (fun p e =>
        p.raw_extinf = e.raw_extinf ∧ p.url = e.url ∧ p.group = e.group ∧
        p.logo = e.logo ∧
        (∀ t, afterComma e.raw_extinf = some t → p.name = e.name))
      (parse_m3u_vod (generate_m3u_content
        (parse_m3u_vod "#EXTINF:-1 group-title=\"News\",CCTV-1\nhttp://a/1" "s")
        none "2025-01-01 00:00:00 UTC" "2025-01-01 08:00:00") "s2")
      (parse_m3u_vod "#EXTINF:-1 group-title=\"News\",CCTV-1\nhttp://a/1" "s") :=
  claim6_amended_roundtrip.2
    (parse_m3u_vod "#EXTINF:-1 group-title=\"News\",CCTV-1\nhttp://a/1" "s")
    "2025-01-01 00:00:00 UTC" "2025-01-01 08:00:00" "s2"
    (fun e he => claim6_amended_roundtrip.1
      "#EXTINF:-1 group-title=\"News\",CCTV-1\nhttp://a/1" "s" e he)
    (by decide) (by decide)

/-! ## C8: optional attributes -/

/-- C8 counterexample: a metadata line with no `group-title` attribute parses
with `group = "未知分类"` (the literal placeholder), not the empty string; the
`tvg-logo` key is simply absent. -/
theorem claim8_group_default_counterexample :
    (parse_m3u_vod "#EXTINF:-1,Name\nhttp://a/1" "s").map VodItem.group =
      ["未知分类"] ∧
    ¬("未知分类" = "") ∧
    (parse_m3u_vod "#EXTINF:-1,Name\nhttp://a/1" "s").map VodItem.logo =
      [none] := by
  decide

/-- **C8 (amended)**: for every entry produced by the VOD parser, the
attribute values are extracted from the metadata line by attribute-key
lookup; an absent `tvg-logo` leaves the `logo` field unset (no dict key,
serialized downstream as the empty string), while an absent `group-title`
sets `group` to the literal placeholder `未知分类` — not the empty string. -/
theorem claim8_amended_attributes (content source_url : String) :
    ∀ e ∈ parse_m3u_vod content source_url,
      (extractAttr "group-title=\"" e.raw_extinf = none →
        e.group = "未知分类") ∧
      (∀ v, extractAttr "group-title=\"" e.raw_extinf = some v →
        e.group = v) ∧
      e.logo = extractAttr "tvg-logo=\"" e.raw_extinf := by
  intro e he
  obtain ⟨_, _, _, _, _, _, hgroup, hlogo, _⟩ :=
    vodItemWF_spec e (parse_m3u_vod_wf content source_url e he)
  refine ⟨?_, ?_, hlogo⟩
  · intro h
    rw [hgroup]
    unfold vodGroupFromRaw
    rw [h]
  · intro v h
    rw [hgroup]
    unfold vodGroupFromRaw
    rw [h]

/-- Witness for C8 (amended): present attribute extracted, absent logo
unset. -/
theorem claim8_witness :
    (⟨"#EXTINF:-1 group-title=\"G\",N", "vod", "s", "N", "G", none,
      "http://a/1"⟩ : VodItem).group = "G" :=
  ((claim8_amended_attributes "#EXTINF:-1 group-title=\"G\",N\nhttp://a/1" "s"
    ⟨"#EXTINF:-1 group-title=\"G\",N", "vod", "s", "N", "G", none,
      "http://a/1"⟩ (by decide)).2.1) "G" (by decide)

end DailyIPTV
